import Mathlib

/-! Bank account registry (Q1.cpp) and warehouse containers (Q2.cpp):
embedding and verified properties.

The C++ program keeps a singly linked list of polymorphic account objects
(`Account`, `SavingsAccount`, `CheckingAccount`) inside `BankSystem`.

Modelling conventions used throughout:

* a C++ `double` is an IEEE 754 binary64 value (`Double`, also named `Money`):
  NaN, the two infinities, the two zeros and the finite values, with `+`, `-`
  rounded to nearest (ties to even) and comparisons that are false on NaN;
* a `std::string` is a Lean `String`; the character classes are those of the
  "C" locale (`isdigit` is `0-9`, `isalpha` is `a-z` and `A-Z`);
* the linked list `head -> ... -> nullptr` is the `List` of the accounts held
  by its nodes, in link order;
* a pointer returned by `searchByAccountNumber` is the first node whose
  account number matches; a write through it is a write to that node;
* the data file is its text; `getline` delivers the pieces between line feeds;
* the library conversions between `double` and text are parameters: `stod`
  (with `none` for a thrown exception) and `fmt`, the stream insertion;
* console output is not modelled.

The containers of Q2.cpp (`Stack<T>`, `Queue<T>`) follow in the namespace
`Warehouse`, each as the list of the data of its nodes. Their files are read
through a stream that keeps its state, because `loadInventory` and
`loadShippingQueue` do not test what `getline` returns; `stoi` and the stream
insertion of a size are parameters. The namespace `Warehouse.Linked` describes
the same containers by their nodes, for the calls that pass a container by
value.
-/

namespace Bank

/-- A C++ `double`: an IEEE 754 binary64 value. A finite value is
`(-1)^negative * mantissa * 2^exponent`; zero has mantissa 0 and keeps its
sign. The values the literals and the operations return have an odd mantissa
(or mantissa 0 with exponent 0), so equal finite values are equal terms, and
they are binary64 values: at most 53 significant bits, no bit below `2^-1074`,
magnitude below `2^1024`. A term with more bits stands for no double; what is
proved for every term holds for every double. -/
inductive Double where
  | nan : Double
  | inf (negative : Bool) : Double
  | fin (negative : Bool) (mantissa : Nat) (exponent : Int) : Double
  deriving DecidableEq, Repr

namespace Double

/-- The number of binary digits of `n`, for `n` below `2^fuel`. -/
def bitLengthAux : Nat → Nat → Nat
  | 0, _ => 0
  | fuel + 1, n => if n = 0 then 0 else bitLengthAux fuel (n / 2) + 1

/-- The number of binary digits of a natural number. -/
def bitLength (n : Nat) : Nat := bitLengthAux n n

/-- The finite value `mantissa * 2^exponent` with the factors 2 of the
mantissa moved into the exponent. -/
def normalize (negative : Bool) (mantissa : Nat) (exponent : Int) : Double :=
  if mantissa = 0 then fin negative 0 0
  else
    let k := bitLength (mantissa ^^^ (mantissa - 1)) - 1
    fin negative (mantissa >>> k) (exponent + k)

/-- Rounding to nearest, ties to even, into binary64: the double nearest to
`(a + t) * 2^e`, where `t` is 0 when `sticky` is false and some value strictly
between 0 and 1 when it is true (then `a` has at least 56 binary digits, so
that at least two bits are dropped). 53 significant bits are kept,
no bit below `2^-1074`; a result of `2^1024` or more is an infinity. -/
def round (negative : Bool) (a : Nat) (sticky : Bool) (e : Int) : Double :=
  if a = 0 then fin negative 0 0
  else
    let top : Int := e + bitLength a - 1
    let last : Int := max (top - 52) (-1074)
    if last ≤ e then
      if top ≥ 1024 then inf negative else normalize negative a e
    else
      let shift := (last - e).toNat
      let q := a >>> shift
      let r := a % 2 ^ shift
      let half := 2 ^ (shift - 1)
      let up := decide (r > half) || (decide (r = half) && (sticky || decide (q % 2 = 1)))
      let n := if up then q + 1 else q
      if last + bitLength n > 1024 then inf negative else normalize negative n last

/-- The double nearest to a natural number. -/
def ofNat (n : Nat) : Double := round false n false 0

/-- The double nearest to the quotient `a / d` of two natural numbers, `d`
not 0: the quotient `a * 2^s / d` is taken with at least 56 binary digits, and
a remainder that is not 0 is the sticky bit. -/
def ofRatio (negative : Bool) (a d : Nat) : Double :=
  if a = 0 then fin negative 0 0
  else
    let s : Nat := 56 + bitLength d - bitLength a
    let num := a <<< s
    round negative (num / d) (decide (num % d ≠ 0)) (-(s : Int))

/-- The value of a decimal literal `mantissa * 10^(-exponent)` or
`mantissa * 10^exponent`, as the compiler converts it. -/
def ofScientific (mantissa : Nat) (exponentSign : Bool) (decimalExponent : Nat) : Double :=
  if exponentSign then ofRatio false mantissa (10 ^ decimalExponent)
  else ofNat (mantissa * 10 ^ decimalExponent)

/-- The operator unary `-`: the sign is flipped. -/
def neg : Double → Double
  | nan => nan
  | inf negative => inf (!negative)
  | fin negative mantissa exponent => fin (!negative) mantissa exponent

/-- The signed mantissa of a finite value at the exponent `base`, which is not
above its own exponent. -/
def scaled (negative : Bool) (mantissa : Nat) (exponent base : Int) : Int :=
  let v : Int := (mantissa * 2 ^ (exponent - base).toNat : Nat)
  if negative then -v else v

/-- The operator `+`: NaN if an operand is NaN or the operands are opposite
infinities; an infinity if one operand is; otherwise the rounded exact sum,
where a zero sum of two values is `+0` unless both are `-0`. -/
def add : Double → Double → Double
  | nan, _ => nan
  | _, nan => nan
  | inf n1, inf n2 => if n1 = n2 then inf n1 else nan
  | inf n1, fin _ _ _ => inf n1
  | fin _ _ _, inf n2 => inf n2
  | fin n1 m1 e1, fin n2 m2 e2 =>
    let base := min e1 e2
    let sum := scaled n1 m1 e1 base + scaled n2 m2 e2 base
    if sum = 0 then fin (decide (m1 = 0) && decide (m2 = 0) && n1 && n2) 0 0
    else round (decide (sum < 0)) sum.natAbs false base

/-- The operator `-`. -/
def sub (a b : Double) : Double := add a (neg b)

/-- The operator `<=`: false if an operand is NaN. -/
def le : Double → Double → Bool
  | nan, _ => false
  | _, nan => false
  | inf n1, inf n2 => n1 || !n2
  | inf n1, fin _ _ _ => n1
  | fin _ _ _, inf n2 => !n2
  | fin n1 m1 e1, fin n2 m2 e2 =>
    decide (scaled n1 m1 e1 (min e1 e2) ≤ scaled n2 m2 e2 (min e1 e2))

/-- The operator `<`: false if an operand is NaN. -/
def lt : Double → Double → Bool
  | nan, _ => false
  | _, nan => false
  | inf n1, inf n2 => n1 && !n2
  | inf n1, fin _ _ _ => n1
  | fin _ _ _, inf n2 => !n2
  | fin n1 m1 e1, fin n2 m2 e2 =>
    decide (scaled n1 m1 e1 (min e1 e2) < scaled n2 m2 e2 (min e1 e2))

instance : LE Double := ⟨fun a b => le a b = true⟩
instance : LT Double := ⟨fun a b => lt a b = true⟩
instance (a b : Double) : Decidable (a ≤ b) := inferInstanceAs (Decidable (le a b = true))
instance (a b : Double) : Decidable (a < b) := inferInstanceAs (Decidable (lt a b = true))
instance : Add Double := ⟨add⟩
instance : Sub Double := ⟨sub⟩
instance : Neg Double := ⟨neg⟩
instance (n : Nat) : OfNat Double n := ⟨ofNat n⟩
instance : OfScientific Double := ⟨ofScientific⟩
instance : NatCast Double := ⟨ofNat⟩

end Double

/-- The numeric type of the amounts: C++ `double`. -/
abbrev Money := Double

/-- The dynamic type of an account object together with the field its class
adds to the base class: `SavingsAccount::interestRate`,
`CheckingAccount::overdraftLimit`. -/
inductive Variant where
  | basic : Variant
  | savings (interestRate : Money) : Variant
  | checking (overdraftLimit : Money) : Variant
  deriving DecidableEq, Repr

/-- An account object: the three fields of the base class `Account` and the
dynamic type with its extra field. -/
structure Account where
  accountNumber : String
  customerName : String
  balance : Money
  variant : Variant
  deriving DecidableEq, Repr

namespace Account

/-- Member function `Account::getAccountNumber`. -/
def getAccountNumber (acc : Account) : String := acc.accountNumber

/-- Member function `Account::getCustomerName`. -/
def getCustomerName (acc : Account) : String := acc.customerName

/-- Member function `Account::getBalance`. -/
def getBalance (acc : Account) : Money := acc.balance

/-- Member function `Account::setBalance`: the only setter of the class. -/
def setBalance (acc : Account) (newBalance : Money) : Account :=
  { acc with balance := newBalance }

/-- The virtual `getAccountType`, with its two overrides. -/
def getAccountType (acc : Account) : String :=
  match acc.variant with
  | .basic => "Basic Account"
  | .savings _ => "Savings Account"
  | .checking _ => "Checking Account"

/-- The virtual `canWithdraw`: `Account::canWithdraw` is inherited by
`SavingsAccount` and overridden by `CheckingAccount`. -/
def canWithdraw (acc : Account) (amount : Money) : Bool :=
  match acc.variant with
  | .basic => decide (amount ≤ acc.balance)
  | .savings _ => decide (amount ≤ acc.balance)
  | .checking overdraftLimit => decide (amount ≤ acc.balance + overdraftLimit)

/-- The virtual `getAvailableBalance`: `Account::getAvailableBalance` is
inherited by `SavingsAccount` and overridden by `CheckingAccount`. -/
def getAvailableBalance (acc : Account) : Money :=
  match acc.variant with
  | .basic => acc.balance
  | .savings _ => acc.balance
  | .checking overdraftLimit => acc.balance + overdraftLimit

end Account

/-- The constructor call `Account(accNum, custName, initialBalance)`. -/
def mkAccount (accNum custName : String) (initialBalance : Money) : Account :=
  { accountNumber := accNum, customerName := custName, balance := initialBalance,
    variant := .basic }

/-- The constructor call `SavingsAccount(accNum, custName, initialBalance, rate)`. -/
def mkSavingsAccount (accNum custName : String) (initialBalance rate : Money) : Account :=
  { accountNumber := accNum, customerName := custName, balance := initialBalance,
    variant := .savings rate }

/-- The constructor call `CheckingAccount(accNum, custName, initialBalance, overdraft)`. -/
def mkCheckingAccount (accNum custName : String) (initialBalance overdraft : Money) : Account :=
  { accountNumber := accNum, customerName := custName, balance := initialBalance,
    variant := .checking overdraft }

/-- The registry state of `BankSystem`: the accounts of the nodes reachable
from `head`, in link order. -/
abbrev Registry := List Account

/-- Member function `BankSystem::isValid`: minimum length (2 for a name, 3
for an account number), then the character class of every character, then
for a name at least one letter. -/
def isValid (str : String) (isName : Bool) : Bool :=
  if str.data.isEmpty || decide (str.length < (if isName then 2 else 3)) then false
  else
    let valid : Bool :=
      if isName then str.data.all (fun c => c.isAlpha || c == ' ')
      else str.data.all (fun c => c.isDigit)
    if !valid then false
    else if isName && !(str.data.any (fun c => c.isAlpha)) then false
    else true

/-- Member function `BankSystem::searchByAccountNumber`: scan from `head`,
return the account of the first node whose number equals `accNum`, `none` for
`nullptr`. -/
def searchByAccountNumber : Registry → String → Option Account
  | [], _ => none
  | current :: next, accNum =>
    if current.getAccountNumber = accNum then some current
    else searchByAccountNumber next accNum

/-- The effect on the list of `acc->setBalance(newBalance)` where `acc` is the
pointer returned by `searchByAccountNumber(accNum)`: the first node whose
number equals `accNum` gets the new balance, in place. -/
def setBalanceOfFound : Registry → String → Money → Registry
  | [], _, _ => []
  | current :: next, accNum, newBalance =>
    if current.getAccountNumber = accNum then current.setBalance newBalance :: next
    else current :: setBalanceOfFound next accNum newBalance

/-- The tail walk of `addAccount`: `newNode` becomes `head` of an empty list,
otherwise it is linked after the last node. -/
def linkAtTail : Registry → Account → Registry
  | [], newAccount => [newAccount]
  | current :: next, newAccount => current :: linkAtTail next newAccount

/-- Member function `BankSystem::addAccount`: the returned flag and the list afterwards. -/
def addAccount (head : Registry) (newAccount : Account) : Bool × Registry :=
  match searchByAccountNumber head newAccount.getAccountNumber with
  | some _ => (false, head)
  | none => (true, linkAtTail head newAccount)

/-- The `for` loop of `deleteAccount`, seen from the nodes after `current`:
the first of them whose number equals `accNum` is unlinked. -/
def unlinkAfter : Registry → String → Bool × Registry
  | [], _ => (false, [])
  | nextNode :: rest, accNum =>
    if nextNode.getAccountNumber = accNum then (true, rest)
    else
      let r := unlinkAfter rest accNum
      (r.1, nextNode :: r.2)

/-- Member function `BankSystem::deleteAccount`: empty list, match at `head`, or the loop over
`current->next`. -/
def deleteAccount : Registry → String → Bool × Registry
  | [], _ => (false, [])
  | first :: rest, accNum =>
    if first.getAccountNumber = accNum then (true, rest)
    else
      let r := unlinkAfter rest accNum
      (r.1, first :: r.2)

/-- Member function `BankSystem::deposit`: the returned flag and the list afterwards. -/
def deposit (head : Registry) (accNum : String) (amount : Money) : Bool × Registry :=
  if amount ≤ 0 then (false, head)
  else
    match searchByAccountNumber head accNum with
    | none => (false, head)
    | some acc =>
      let oldBalance := acc.getBalance
      (true, setBalanceOfFound head accNum (oldBalance + amount))

/-- Member function `BankSystem::withdraw`: the returned flag and the list afterwards. -/
def withdraw (head : Registry) (accNum : String) (amount : Money) : Bool × Registry :=
  if amount ≤ 0 then (false, head)
  else
    match searchByAccountNumber head accNum with
    | none => (false, head)
    | some acc =>
      if !acc.canWithdraw amount then (false, head)
      else
        let oldBalance := acc.getBalance
        (true, setBalanceOfFound head accNum (oldBalance - amount))

/-- Member function `BankSystem::createAccount`. The value read from `cin` inside the
`Savings` and `Checking` cases is the argument `extra`. The function does not
touch `head`; `none` is `nullptr`. -/
def createAccount (type : Int) (accNum custName : String) (balance extra : Money) :
    Option Account :=
  if !isValid accNum false || !isValid custName true || decide (balance < 0) then none
  else if type = 1 then some (mkAccount accNum custName balance)
  else if type = 2 then
    let rate := extra
    some (mkSavingsAccount accNum custName balance (if rate > 0 then rate else 2.5))
  else if type = 3 then
    let overdraft := extra
    some (mkCheckingAccount accNum custName balance (if overdraft ≥ 0 then overdraft else 500))
  else none

/-- Library function `std::string::substr(pos, len)` for `pos` within the string. -/
def substr (s : String) (pos len : Nat) : String := ⟨(s.data.drop pos).take len⟩

/-- Library function `std::string::substr(pos)` for `pos` within the string. -/
def substrFrom (s : String) (pos : Nat) : String := ⟨s.data.drop pos⟩

/-- The local variables of `loadAccountsFromFile` that live across loop
iterations. The three strings start empty; the three doubles are declared
without initialiser, so their starting values are arbitrary. -/
structure LoadVars where
  type : String
  number : String
  name : String
  balance : Money
  rate : Money
  limit : Money
  deriving DecidableEq, Repr

/-- The statement `if (getline(inFile, line) && line.substr(0, n) == pfx)
var = line.substr(n);` for a string variable: the new value of the variable
and the lines left in the stream. A line is consumed whether or not it
carries the prefix. -/
def readStringField (pfx : String) (old : String) : List String → String × List String
  | [] => (old, [])
  | line :: rest =>
    if substr line 0 pfx.length = pfx then (substrFrom line pfx.length, rest) else (old, rest)

/-- The statement `if (getline(inFile, line) && line.substr(0, n) == pfx)
var = stod(line.substr(n));` for a double variable. `stod` is the library
conversion, `none` when it throws; the result is then `none` as well. -/
def readNumberField (stod : String → Option Money) (pfx : String) (old : Money) :
    List String → Option (Money × List String)
  | [] => some (old, [])
  | line :: rest =>
    if substr line 0 pfx.length = pfx then
      match stod (substrFrom line pfx.length) with
      | none => none
      | some v => some (v, rest)
    else some (old, rest)

/-- The statement `getline(inFile, line); // Skip separator`. -/
def skipLine : List String → List String
  | [] => []
  | _ :: rest => rest

/-- How a run of `loadAccountsFromFile` ends: the loop ran to its end, or
`stod` threw; either way `head` is the list at that moment. -/
inductive LoadOutcome where
  | finished (head : Registry) : LoadOutcome
  | threw (head : Registry) : LoadOutcome
  deriving DecidableEq, Repr

/-- The list held when the load ended. -/
def LoadOutcome.head : LoadOutcome → Registry
  | .finished head => head
  | .threw head => head

/-- The `while` loop of `loadAccountsFromFile` over the lines still in the
stream. Every iteration consumes at least the `TYPE:` line, so `fuel` equal to
the number of lines is never used up before the stream is. -/
def loadLoop (stod : String → Option Money) :
    Nat → LoadVars → Registry → List String → LoadOutcome
  | 0, _, head, _ => .finished head
  | _ + 1, _, head, [] => .finished head
  | fuel + 1, vars, head, line :: inFile =>
    if substr line 0 5 = "TYPE:" then
      let type := substrFrom line 5
      let (number, inFile) := readStringField "NUMBER:" vars.number inFile
      let (name, inFile) := readStringField "NAME:" vars.name inFile
      match readNumberField stod "BALANCE:" vars.balance inFile with
      | none => .threw head
      | some (balance, inFile) =>
        if type = "Basic Account" then
          let head := (addAccount head (mkAccount number name balance)).2
          loadLoop stod fuel { vars with type, number, name, balance } head (skipLine inFile)
        else if type = "Savings Account" then
          match readNumberField stod "INTEREST_RATE:" vars.rate inFile with
          | none => .threw head
          | some (rate, inFile) =>
            let head := (addAccount head (mkSavingsAccount number name balance rate)).2
            loadLoop stod fuel { vars with type, number, name, balance, rate } head
              (skipLine inFile)
        else if type = "Checking Account" then
          match readNumberField stod "OVERDRAFT_LIMIT:" vars.limit inFile with
          | none => .threw head
          | some (limit, inFile) =>
            let head := (addAccount head (mkCheckingAccount number name balance limit)).2
            loadLoop stod fuel { vars with type, number, name, balance, limit } head
              (skipLine inFile)
        else
          loadLoop stod fuel { vars with type, number, name, balance } head (skipLine inFile)
    else .finished head

/-- Member function `BankSystem::loadAccountsFromFile`. `file` is `none` when the stream
cannot be opened and otherwise the lines `getline` delivers; `balance0`,
`rate0`, `limit0` are the values the uninitialised doubles happen to hold. -/
def loadAccountsFromFile (stod : String → Option Money) (balance0 rate0 limit0 : Money)
    (head : Registry) (file : Option (List String)) : LoadOutcome :=
  match file with
  | none => .finished head
  | some inFile =>
    loadLoop stod inFile.length
      { type := "", number := "", name := "", balance := balance0, rate := rate0,
        limit := limit0 }
      head inFile

/-- One call on the `BankSystem` object. -/
inductive Op where
  | addAccount (newAccount : Account) : Op
  | deleteAccount (accNum : String) : Op
  | deposit (accNum : String) (amount : Money) : Op
  | withdraw (accNum : String) (amount : Money) : Op
  | loadAccountsFromFile (balance0 rate0 limit0 : Money) (file : Option (List String)) : Op

/-- The list after one call. -/
def Op.apply (stod : String → Option Money) (head : Registry) : Op → Registry
  | .addAccount newAccount => (Bank.addAccount head newAccount).2
  | .deleteAccount accNum => (Bank.deleteAccount head accNum).2
  | .deposit accNum amount => (Bank.deposit head accNum amount).2
  | .withdraw accNum amount => (Bank.withdraw head accNum amount).2
  | .loadAccountsFromFile balance0 rate0 limit0 file =>
    (Bank.loadAccountsFromFile stod balance0 rate0 limit0 head file).head

/-- The list after a sequence of calls, first call first. -/
def runOps (stod : String → Option Money) (head : Registry) (ops : List Op) : Registry :=
  ops.foldl (Op.apply stod) head

/-- Key uniqueness: no two nodes carry the same account number. -/
def UniqueKeys (head : Registry) : Prop :=
  head.Pairwise (fun a b => a.accountNumber ≠ b.accountNumber)

instance (head : Registry) : Decidable (UniqueKeys head) := by
  unfold UniqueKeys; infer_instance

/-! ### The text of the data file -/

/-- The lines successive `getline` calls deliver from a text: the text is cut
at every line feed, and a final piece is a line only if it is not empty. -/
def splitLines : List Char → List (List Char)
  | [] => []
  | c :: cs =>
    if c = '\n' then [] :: splitLines cs
    else
      match splitLines cs with
      | [] => [[c]]
      | line :: rest => (c :: line) :: rest

/-- The lines `getline` delivers from a file with the given content. -/
def fileLines (text : String) : List String := (splitLines text.data).map String.mk

/-- The body of the `for` loop of `saveAccountsToFile`: what one account adds
to the stream. `fmt` is the stream insertion of a `double`. -/
def writeAccount (fmt : Money → String) (acc : Account) : String :=
  "TYPE:" ++ acc.getAccountType ++ "\nNUMBER:" ++ acc.getAccountNumber ++
    "\nNAME:" ++ acc.getCustomerName ++ "\nBALANCE:" ++ fmt acc.getBalance ++ "\n" ++
    (match acc.variant with
      | .savings interestRate => "INTEREST_RATE:" ++ fmt interestRate ++ "\n"
      | .checking overdraftLimit => "OVERDRAFT_LIMIT:" ++ fmt overdraftLimit ++ "\n"
      | .basic => "") ++
    "----------\n"

/-- Member function `BankSystem::saveAccountsToFile` for a stream that opened:
the text written, one pass over the nodes from `head`. -/
def saveAccountsToFile (fmt : Money → String) : Registry → String
  | [] => ""
  | current :: next => writeAccount fmt current ++ saveAccountsToFile fmt next

/-- The lines of one record block as the file format describes them: `TYPE:`,
`NUMBER:`, `NAME:`, `BALANCE:`, the line of the extra field of a Savings or
Checking record, and the marker line. -/
def blockLines (fmt : Money → String) (acc : Account) : List String :=
  ["TYPE:" ++ acc.getAccountType, "NUMBER:" ++ acc.accountNumber,
    "NAME:" ++ acc.customerName, "BALANCE:" ++ fmt acc.balance] ++
  (match acc.variant with
    | .basic => []
    | .savings interestRate => ["INTEREST_RATE:" ++ fmt interestRate]
    | .checking overdraftLimit => ["OVERDRAFT_LIMIT:" ++ fmt overdraftLimit]) ++
  ["----------"]

/-- A text: its lines, each followed by a line feed. -/
def unlines : List String → String
  | [] => ""
  | line :: rest => line ++ "\n" ++ unlines rest

/-- The string holds no line feed. -/
def NoLineFeed (s : String) : Prop := '\n' ∉ s.data

instance (s : String) : Decidable (NoLineFeed s) := by
  unfold NoLineFeed; infer_instance

/-- The numeric fields of a record: the balance and the extra field if any. -/
def Account.numbers (acc : Account) : List Money :=
  match acc.variant with
  | .basic => [acc.balance]
  | .savings interestRate => [acc.balance, interestRate]
  | .checking overdraftLimit => [acc.balance, overdraftLimit]

/-- What the text format can carry of a record: number and name without line
feed, and every numeric field printed without line feed in a form that `stod`
reads back as the same value. -/
def Storable (fmt : Money → String) (stod : String → Option Money) (acc : Account) : Prop :=
  NoLineFeed acc.accountNumber ∧ NoLineFeed acc.customerName ∧
    ∀ v ∈ acc.numbers, NoLineFeed (fmt v) ∧ stod (fmt v) = some v

/-- The value of a string of decimal digits, `none` if another character occurs. -/
def digitsValue : List Char → Nat → Option Nat
  | [], value => some value
  | c :: cs, value =>
    if c.isDigit then digitsValue cs (10 * value + (c.toNat - '0'.toNat)) else none

/-- The longest run of decimal digits at the start of a text, and the rest. -/
def spanDigits : List Char → List Char × List Char
  | [] => ([], [])
  | c :: cs =>
    if c.isDigit then ((spanDigits cs).1.cons c, (spanDigits cs).2) else ([], c :: cs)

/-- The value of a text `digits`, `digits.digits`, `digitse+digits` or
`digits.digitse+digits` (with `e-` too): the double nearest to the decimal
number written, `none` for any other text. -/
def scientificValue (cs : List Char) : Option Money :=
  let whole := (spanDigits cs).1
  let afterWhole := (spanDigits cs).2
  let fraction := match afterWhole with
    | '.' :: tl => (spanDigits tl).1
    | _ => []
  let afterFraction := match afterWhole with
    | '.' :: tl => (spanDigits tl).2
    | _ => afterWhole
  if whole.isEmpty && fraction.isEmpty then none
  else
    match digitsValue (whole ++ fraction) 0 with
    | none => none
    | some m =>
      match afterFraction with
      | [] => some (Double.ofRatio false m (10 ^ fraction.length))
      | 'e' :: '+' :: ds =>
        if ds.isEmpty then none
        else (digitsValue ds 0).map fun x =>
          if fraction.length ≤ x then Double.ofNat (m * 10 ^ (x - fraction.length))
          else Double.ofRatio false m (10 ^ (fraction.length - x))
      | 'e' :: '-' :: ds =>
        if ds.isEmpty then none
        else (digitsValue ds 0).map fun x =>
          Double.ofRatio false m (10 ^ (fraction.length + x))
      | _ => none

/-- A stand-in for `stod` on the texts used in the examples: a non-empty string
of decimal digits has its value, a decimal number with a fraction or an
exponent part has the nearest double, any other string makes it throw. -/
def stodDigits (s : String) : Option Money :=
  if s.data.isEmpty then none
  else
    match digitsValue s.data 0 with
    | some n => some (n : Money)
    | none => scientificValue s.data

/-- The characters of a text without the zeros at its end. -/
def dropTrailingZeros (cs : List Char) : List Char :=
  (cs.reverse.dropWhile fun c => c == '0').reverse

/-- The scientific form, at six significant digits, of a whole number that
has at least seven digits: the number is rounded to six digits (ties to even),
the zeros at the end of the mantissa are dropped, and the decimal exponent is
written with a sign and at least two digits. -/
def scientificSix (n : Nat) : String :=
  let x := (Nat.toDigits 10 n).length - 1
  let unit := 10 ^ (x - 5)
  let q := n / unit
  let r := n % unit
  let up := decide (2 * r > unit) || (decide (2 * r = unit) && decide (q % 2 = 1))
  let d := if up then q + 1 else q
  let x := if d = 1000000 then x + 1 else x
  let d := if d = 1000000 then 100000 else d
  let digits := Nat.toDigits 10 d
  let fraction := dropTrailingZeros digits.tail
  String.mk (digits.take 1 ++ (if fraction.isEmpty then [] else '.' :: fraction)) ++ "e+" ++
    (if x < 10 then "0" else "") ++ toString x

/-- A stand-in for the stream insertion of a `double` on the values used in
the examples. The stream has its default format and precision, six
significant digits: a whole number from 0 to 999999 is printed as its decimal
digits, a larger whole number in the scientific form. -/
def fmtDigits : Money → String
  | .fin false mantissa exponent =>
    if 0 ≤ exponent then
      if mantissa <<< exponent.toNat < 1000000 then toString (mantissa <<< exponent.toNat)
      else scientificSix (mantissa <<< exponent.toNat)
    else ""
  | _ => ""

/-! ### Sessions -/

/-- A call `createAccount(...)` on the object: the record returned and the
list afterwards. The body reads its arguments and `cin` only and writes no
member, so the list is the one before the call. -/
def createAccountOn (head : Registry) (type : Int) (accNum custName : String)
    (balance extra : Money) : Option Account × Registry :=
  (createAccount type accNum custName balance extra, head)

/-- One step of a session on the registry: `createAccount` followed by
`addAccount` of the record it returned, as `createNewAccount` does when `acc`
is not null, or one of `deposit`, `withdraw`, `deleteAccount`. -/
inductive SessionOp where
  | createAndAdd (type : Int) (accNum custName : String) (balance extra : Money) : SessionOp
  | deposit (accNum : String) (amount : Money) : SessionOp
  | withdraw (accNum : String) (amount : Money) : SessionOp
  | deleteAccount (accNum : String) : SessionOp

/-- The list after one step of a session. -/
def SessionOp.apply (head : Registry) : SessionOp → Registry
  | .createAndAdd type accNum custName balance extra =>
    match createAccountOn head type accNum custName balance extra with
    | (none, head) => head
    | (some acc, head) => (Bank.addAccount head acc).2
  | .deposit accNum amount => (Bank.deposit head accNum amount).2
  | .withdraw accNum amount => (Bank.withdraw head accNum amount).2
  | .deleteAccount accNum => (Bank.deleteAccount head accNum).2

/-- The list after a session, first step first. -/
def runSession (head : Registry) (ops : List SessionOp) : Registry :=
  ops.foldl SessionOp.apply head

/-- The fields of a record that no operation writes: variant with its extra
field, account number and customer name. -/
def Account.fixedPart (acc : Account) : Variant × String × String :=
  (acc.variant, acc.accountNumber, acc.customerName)

end Bank

/-! # Warehouse containers (Q2.cpp) -/

namespace Warehouse

/-- The class template `Stack<T>`: the data of the nodes reachable from
`topNode`, top first. -/
structure Stack (T : Type) where
  nodes : List T
  deriving DecidableEq, Repr

/-- The class template `Queue<T>`: the data of the nodes reachable from
`frontNode`, front first. `backNode` is the last of these nodes, and
`nullptr` when there is none. -/
structure Queue (T : Type) where
  nodes : List T
  deriving DecidableEq, Repr

namespace Stack

variable {T : Type}

/-- The constructor `Stack()`. -/
def new : Stack T := ⟨[]⟩

/-- Member function `Stack::push`: a new node in front of `topNode`. -/
def push (s : Stack T) (val : T) : Stack T := ⟨val :: s.nodes⟩

/-- Member function `Stack::pop`: unlink the top node if there is one. -/
def pop (s : Stack T) : Stack T :=
  match s.nodes with
  | [] => s
  | _ :: next => ⟨next⟩

/-- Member function `Stack::top`: the data of the top node; `none` stands for
the `runtime_error` thrown on an empty stack. -/
def top (s : Stack T) : Option T :=
  match s.nodes with
  | [] => none
  | data :: _ => some data

/-- Member function `Stack::empty`. -/
def empty (s : Stack T) : Bool :=
  match s.nodes with
  | [] => true
  | _ :: _ => false

/-- The `while (curr)` loop of `toVector` from node `curr` on. -/
def walk : List T → List T → List T
  | [], out => out
  | data :: next, out => walk next (out ++ [data])

/-- Member function `Stack::toVector`, a `const` member: the vector `out`
after the call. -/
def toVector (s : Stack T) (out : List T) : List T := walk s.nodes out

end Stack

namespace Queue

variable {T : Type}

/-- The constructor `Queue()`. -/
def new : Queue T := ⟨[]⟩

/-- The effect of `backNode->next = n` on the chain from `frontNode`. -/
def linkAfterBack : List T → T → List T
  | [], val => [val]
  | data :: next, val => data :: linkAfterBack next val

/-- Member function `Queue::push`: the new node is linked after `backNode`
when there is one, otherwise it becomes `frontNode`; it is the new
`backNode`. -/
def push (q : Queue T) (val : T) : Queue T :=
  match q.nodes with
  | [] => ⟨[val]⟩
  | data :: next => ⟨linkAfterBack (data :: next) val⟩

/-- Member function `Queue::pop`: unlink the front node if there is one. -/
def pop (q : Queue T) : Queue T :=
  match q.nodes with
  | [] => q
  | _ :: next => ⟨next⟩

/-- Member function `Queue::front`: the data of the front node; `none` stands
for the `runtime_error` thrown on an empty queue. -/
def front (q : Queue T) : Option T :=
  match q.nodes with
  | [] => none
  | data :: _ => some data

/-- Member function `Queue::empty`. -/
def empty (q : Queue T) : Bool :=
  match q.nodes with
  | [] => true
  | _ :: _ => false

/-- The `while (curr)` loop of `toVector` from node `curr` on. -/
def walk : List T → List T → List T
  | [], out => out
  | data :: next, out => walk next (out ++ [data])

/-- Member function `Queue::toVector`, a `const` member: the vector `out`
after the call. -/
def toVector (q : Queue T) (out : List T) : List T := walk q.nodes out

/-- The queue after the given values are pushed, first value first. -/
def pushAll (q : Queue T) (vals : List T) : Queue T := vals.foldl push q

/-- The queue after `n` calls of `pop`. -/
def popN : Nat → Queue T → Queue T
  | 0, q => q
  | n + 1, q => popN n q.pop

end Queue

/-! ### Persistence of the containers -/

/-- The class `Item`. -/
structure Item where
  name : String
  deriving DecidableEq, Repr

/-- Member function `Item::getName`. -/
def Item.getName (item : Item) : String := item.name

namespace Stack

variable {T : Type}

/-- The `while (!empty())` loop of `Stack::extractToVector`: every top is
appended to `temp` and popped; the stack left and `temp` after the loop. -/
def drain : List T → List T → Stack T × List T
  | [], temp => (⟨[]⟩, temp)
  | data :: next, temp => drain next (temp ++ [data])

/-- Member function `Stack::extractToVector`: the stack left and the vector
`out` after the call; `temp` is appended to `out` from its last element to its
first. -/
def extractToVector (s : Stack T) (out : List T) : Stack T × List T :=
  let r := drain s.nodes []
  (r.1, out ++ r.2.reverse)

/-- Member function `Stack::loadFromVector`: the items are pushed in vector
order. -/
def loadFromVector (s : Stack T) (items : List T) : Stack T := items.foldl push s

/-- The loop `while (!inventory.empty()) inventory.pop();`. -/
def clear : List T → Stack T
  | [] => ⟨[]⟩
  | _ :: next => clear next

end Stack

namespace Queue

variable {T : Type}

/-- The `while (!empty())` loop of `Queue::extractToVector`: every front is
appended to `out` and popped; the queue left and `out` after the loop. -/
def drain : List T → List T → Queue T × List T
  | [], out => (⟨[]⟩, out)
  | data :: next, out => drain next (out ++ [data])

/-- Member function `Queue::extractToVector`: the queue left and the vector
`out` after the call. -/
def extractToVector (q : Queue T) (out : List T) : Queue T × List T := drain q.nodes out

/-- Member function `Queue::loadFromVector`: the items are pushed in vector
order. -/
def loadFromVector (q : Queue T) (items : List T) : Queue T := items.foldl push q

/-- The loop `while (!shippingQueue.empty()) shippingQueue.pop();`. -/
def clear : List T → Queue T
  | [] => ⟨[]⟩
  | _ :: next => clear next

end Queue

/-- An input file stream that opened: the characters not yet read, and
whether no state bit is set. -/
structure IStream where
  rest : List Char
  good : Bool
  deriving DecidableEq, Repr

/-- The extraction of `getline`: the characters up to the next line feed, the
characters after it, and whether the end of the file was met instead of a line
feed. -/
def takeLine : List Char → List Char × List Char × Bool
  | [] => ([], [], true)
  | c :: cs =>
    if c = '\n' then ([], cs, false)
    else
      let r := takeLine cs
      (c :: r.1, r.2.1, r.2.2)

/-- Library function `getline(inFile, line)`: the stream and the string after
the call. On a stream with a state bit set nothing is read and the string
keeps its value. Otherwise the string is erased and filled up to the next line
feed; meeting the end of the file sets `eofbit`, and `failbit` too when no
character was read. -/
def getline (inFile : IStream) (line : String) : IStream × String :=
  if inFile.good then
    let r := takeLine inFile.rest
    ({ rest := r.2.1, good := !r.2.2 }, String.mk r.1)
  else (inFile, line)

/-- The `for (const auto& item : items)` loop of the two save functions. -/
def writeItemLines : List Item → String
  | [] => ""
  | item :: rest => "ITEM:" ++ item.getName ++ "\n" ++ writeItemLines rest

/-- The text both save functions write for the extracted vector; `fmtSize` is
the stream insertion of `items.size()`. -/
def writeItems (fmtSize : Nat → String) (items : List Item) : String :=
  "ITEM_COUNT:" ++ fmtSize items.length ++ "\n" ++ writeItemLines items

/-- Function `saveInventory` for a stream that opened: the text written. The
parameter is the stack of the caller as a value; what the call does to the
nodes of the caller is the subject of `Linked.saveInventory`. -/
def saveInventory (fmtSize : Nat → String) (inventory : Stack Item) : String :=
  writeItems fmtSize (inventory.extractToVector []).2

/-- Function `saveShippingQueue` for a stream that opened: the text written. -/
def saveShippingQueue (fmtSize : Nat → String) (shippingQueue : Queue Item) : String :=
  writeItems fmtSize (shippingQueue.extractToVector []).2

/-- The `for (int i = 0; i < count; i++)` loop of the two load functions:
`none` when `runtime_error` is thrown, otherwise the vector `items`. The value
`getline` returns is not looked at. -/
def readItems : Nat → IStream → String → List Item → Option (List Item)
  | 0, _, _, items => some items
  | n + 1, inFile, line, items =>
    let r := getline inFile line
    if Bank.substr r.2 0 5 = "ITEM:" then
      let itemName := Bank.substrFrom r.2 5
      readItems n r.1 r.2 (items ++ [⟨itemName⟩])
    else none

/-- The `try` block of the two load functions up to the filled vector: `none`
when an exception is thrown (by `stoi`, `none` for its throw, or by the two
format checks). -/
def readItemFile (stoi : String → Option Int) (text : String) : Option (List Item) :=
  let r := getline { rest := text.data, good := true } ""
  if Bank.substr r.2 0 11 = "ITEM_COUNT:" then
    match stoi (Bank.substrFrom r.2 11) with
    | none => none
    | some count => readItems count.toNat r.1 r.2 []
  else none

/-- Function `loadInventory`: the stack of the caller after the call. `file`
is `none` when the stream cannot be opened and otherwise the content of the
file. The items read are pushed from the last to the first. -/
def loadInventory (stoi : String → Option Int) (inventory : Stack Item)
    (file : Option String) : Stack Item :=
  match file with
  | none => inventory
  | some text =>
    let inventory := Stack.clear inventory.nodes
    match readItemFile stoi text with
    | none => inventory
    | some items => items.reverse.foldl Stack.push inventory

/-- Function `loadShippingQueue`: the queue of the caller after the call. The
items read are pushed from the first to the last. -/
def loadShippingQueue (stoi : String → Option Int) (shippingQueue : Queue Item)
    (file : Option String) : Queue Item :=
  match file with
  | none => shippingQueue
  | some text =>
    let shippingQueue := Queue.clear shippingQueue.nodes
    match readItemFile stoi text with
    | none => shippingQueue
    | some items => items.foldl Queue.push shippingQueue

/-- A stand-in for `stoi` on the texts used in the examples: a non-empty string
of decimal digits has its value, any other string makes it throw. -/
def stoiDigits (s : String) : Option Int :=
  if s.data.isEmpty then none else (Bank.digitsValue s.data 0).map Int.ofNat

/-! ### The nodes of the containers

The lists above describe one container on its own. `saveInventory` and
`saveShippingQueue` take their argument by value, and neither class template
declares a copy constructor, so the parameter is a memberwise copy: it holds
the same node pointers as the object of the caller. What the call does to that
object needs the nodes themselves. -/

namespace Linked

/-- The outcome of running a piece of code on the nodes: a result, the use of
a deleted node (undefined behaviour), or the end of the fuel of a loop. -/
inductive Run (α : Type) where
  | done (value : α) : Run α
  | undefined : Run α
  | outOfFuel : Run α
  deriving DecidableEq, Repr

/-- A node `Node` of either class template: its data and its `next` pointer. -/
structure Node (T : Type) where
  data : T
  next : Option Nat
  deriving DecidableEq, Repr

/-- The nodes allocated so far, by address: `some node` for a live node,
`none` for a deleted one. -/
abbrev Heap (T : Type) := List (Option (Node T))

variable {T : Type}

/-- The node a pointer designates, `none` if it has been deleted. -/
def Heap.read (h : Heap T) (p : Nat) : Option (Node T) := (h.get? p).join

/-- The expression `new Node(...)`: the heap with the new node, and its
address. -/
def Heap.alloc (h : Heap T) (node : Node T) : Heap T × Nat := (h ++ [some node], h.length)

/-- The statement `delete temp`. -/
def Heap.delete (h : Heap T) (p : Nat) : Heap T := h.set p none

/-- The number of live nodes. -/
def Heap.live (h : Heap T) : Nat := h.countP Option.isSome

/-- The data member of a `Stack<T>` object. -/
structure StackObj where
  topNode : Option Nat
  deriving DecidableEq, Repr

/-- The data members of a `Queue<T>` object. -/
structure QueueObj where
  frontNode : Option Nat
  backNode : Option Nat
  deriving DecidableEq, Repr

/-- The data reached from a node pointer by following `next`, which is what
`toVector` lists from `topNode` or `frontNode`. -/
def chain : Nat → Heap T → Option Nat → Run (List T)
  | 0, _, _ => .outOfFuel
  | _ + 1, _, none => .done []
  | fuel + 1, h, some p =>
    match h.read p with
    | none => .undefined
    | some node =>
      match chain fuel h node.next with
      | .done items => .done (node.data :: items)
      | .undefined => .undefined
      | .outOfFuel => .outOfFuel

/-- The items a stack object holds, from the top down. -/
def StackObj.items (h : Heap T) (s : StackObj) : Run (List T) := chain (h.length + 1) h s.topNode

/-- The items a queue object holds, from the front to the back. -/
def QueueObj.items (h : Heap T) (q : QueueObj) : Run (List T) :=
  chain (h.length + 1) h q.frontNode

/-- Member function `Stack::push` on the nodes. -/
def StackObj.push (h : Heap T) (s : StackObj) (val : T) : Heap T × StackObj :=
  let r := h.alloc { data := val, next := s.topNode }
  (r.1, { topNode := some r.2 })

/-- The `while (!empty())` loop of `Stack::extractToVector` on the nodes:
`top()` reads the node `topNode` points to, `pop()` moves `topNode` to its
`next` and deletes it. -/
def StackObj.drain : Nat → Heap T → StackObj → List T → Run (Heap T × StackObj × List T)
  | 0, _, _, _ => .outOfFuel
  | fuel + 1, h, s, temp =>
    match s.topNode with
    | none => .done (h, s, temp)
    | some p =>
      match h.read p with
      | none => .undefined
      | some node => drain fuel (h.delete p) { topNode := node.next } (temp ++ [node.data])

/-- Member function `Stack::extractToVector` on the nodes. -/
def StackObj.extractToVector (h : Heap T) (s : StackObj) (out : List T) :
    Run (Heap T × StackObj × List T) :=
  match StackObj.drain (h.length + 1) h s [] with
  | .done r => .done (r.1, r.2.1, out ++ r.2.2.reverse)
  | .undefined => .undefined
  | .outOfFuel => .outOfFuel

/-- The destructor `~Stack()` on the nodes: the heap after it. -/
def StackObj.destroy (h : Heap T) (s : StackObj) : Run (Heap T) :=
  match StackObj.drain (h.length + 1) h s [] with
  | .done r => .done r.1
  | .undefined => .undefined
  | .outOfFuel => .outOfFuel

/-- Member function `Queue::push` on the nodes. -/
def QueueObj.push (h : Heap T) (q : QueueObj) (val : T) : Run (Heap T × QueueObj) :=
  let r := h.alloc { data := val, next := none }
  match q.backNode with
  | none =>
    .done (r.1, { frontNode := if q.frontNode.isNone then some r.2 else q.frontNode,
                  backNode := some r.2 })
  | some b =>
    match Heap.read r.1 b with
    | none => .undefined
    | some node =>
      .done (List.set r.1 b (some { node with next := some r.2 }),
        { frontNode := if q.frontNode.isNone then some r.2 else q.frontNode,
          backNode := some r.2 })

/-- The `while (!empty())` loop of `Queue::extractToVector` on the nodes:
`front()` reads the node `frontNode` points to, `pop()` moves `frontNode` to
its `next`, resets `backNode` when that is null, and deletes the node. -/
def QueueObj.drain : Nat → Heap T → QueueObj → List T → Run (Heap T × QueueObj × List T)
  | 0, _, _, _ => .outOfFuel
  | fuel + 1, h, q, out =>
    match q.frontNode with
    | none => .done (h, q, out)
    | some p =>
      match h.read p with
      | none => .undefined
      | some node =>
        drain fuel (h.delete p)
          { frontNode := node.next,
            backNode := if node.next.isNone then none else q.backNode }
          (out ++ [node.data])

/-- Member function `Queue::extractToVector` on the nodes. -/
def QueueObj.extractToVector (h : Heap T) (q : QueueObj) (out : List T) :
    Run (Heap T × QueueObj × List T) :=
  QueueObj.drain (h.length + 1) h q out

/-- The destructor `~Queue()` on the nodes: the heap after it. -/
def QueueObj.destroy (h : Heap T) (q : QueueObj) : Run (Heap T) :=
  match QueueObj.drain (h.length + 1) h q [] with
  | .done r => .done r.1
  | .undefined => .undefined
  | .outOfFuel => .outOfFuel

/-- Function `saveInventory` on the nodes, for a stream that opened: the heap
after the call and the text written. The parameter `inventory` starts as the
memberwise copy of the object of the caller, is emptied by
`extractToVector`, and is destroyed at the return; the object of the caller
is not written and keeps its `topNode`. -/
def saveInventory (fmtSize : Nat → String) (h : Heap Item) (caller : StackObj) :
    Run (Heap Item × String) :=
  let inventory : StackObj := { topNode := caller.topNode }
  match inventory.extractToVector h [] with
  | .done r =>
    match StackObj.destroy r.1 r.2.1 with
    | .done h => .done (h, writeItems fmtSize r.2.2)
    | .undefined => .undefined
    | .outOfFuel => .outOfFuel
  | .undefined => .undefined
  | .outOfFuel => .outOfFuel

/-- Function `saveShippingQueue` on the nodes, for a stream that opened: the
heap after the call and the text written. The object of the caller is not
written and keeps its `frontNode` and `backNode`. -/
def saveShippingQueue (fmtSize : Nat → String) (h : Heap Item) (caller : QueueObj) :
    Run (Heap Item × String) :=
  let shippingQueue : QueueObj :=
    { frontNode := caller.frontNode, backNode := caller.backNode }
  match shippingQueue.extractToVector h [] with
  | .done r =>
    match QueueObj.destroy r.1 r.2.1 with
    | .done h => .done (h, writeItems fmtSize r.2.2)
    | .undefined => .undefined
    | .outOfFuel => .outOfFuel
  | .undefined => .undefined
  | .outOfFuel => .outOfFuel

end Linked

end Warehouse

namespace Bank

/-! ## Lemmas on the list scan -/

theorem search_eq_none_iff (head : Registry) (accNum : String) :
    searchByAccountNumber head accNum = none ↔ ∀ r ∈ head, r.accountNumber ≠ accNum := by
  induction head with
  | nil => simp [searchByAccountNumber]
  | cons current next ih =>
    by_cases h : current.accountNumber = accNum
    · simp [searchByAccountNumber, Account.getAccountNumber, h]
    · simp [searchByAccountNumber, Account.getAccountNumber, h, ih]

theorem search_eq_some_iff (head : Registry) (accNum : String) (acc : Account) :
    searchByAccountNumber head accNum = some acc ↔
      ∃ pre post, head = pre ++ acc :: post ∧ (∀ r ∈ pre, r.accountNumber ≠ accNum) ∧
        acc.accountNumber = accNum := by
  induction head with
  | nil => simp [searchByAccountNumber]
  | cons current next ih =>
    by_cases h : current.accountNumber = accNum
    · simp only [searchByAccountNumber, Account.getAccountNumber, h, if_true, Option.some.injEq]
      constructor
      · rintro rfl
        exact ⟨[], next, rfl, by simp, h⟩
      · rintro ⟨pre, post, hsplit, hpre, -⟩
        cases pre with
        | nil => simp at hsplit; exact hsplit.1
        | cons p pre =>
          simp at hsplit
          exact absurd (hsplit.1 ▸ h) (hpre p (by simp))
    · simp only [searchByAccountNumber, Account.getAccountNumber, h, if_false, ih]
      constructor
      · rintro ⟨pre, post, rfl, hpre, hacc⟩
        refine ⟨current :: pre, post, rfl, ?_, hacc⟩
        intro r hr
        rcases List.mem_cons.1 hr with rfl | hr
        · exact h
        · exact hpre r hr
      · rintro ⟨pre, post, hsplit, hpre, hacc⟩
        cases pre with
        | nil =>
          simp at hsplit
          exact absurd (hsplit.1 ▸ hacc) h
        | cons p pre =>
          simp at hsplit
          exact ⟨pre, post, hsplit.2, fun r hr => hpre r (by simp [hr]), hacc⟩

theorem search_mem (head : Registry) (accNum : String) (acc : Account)
    (h : searchByAccountNumber head accNum = some acc) :
    acc ∈ head ∧ acc.accountNumber = accNum := by
  obtain ⟨pre, post, rfl, -, hacc⟩ := (search_eq_some_iff head accNum acc).1 h
  exact ⟨by simp, hacc⟩

theorem setBalanceOfFound_split (pre post : Registry) (acc : Account) (accNum : String)
    (v : Money) (hpre : ∀ r ∈ pre, r.accountNumber ≠ accNum)
    (hacc : acc.accountNumber = accNum) :
    setBalanceOfFound (pre ++ acc :: post) accNum v = pre ++ { acc with balance := v } :: post := by
  induction pre with
  | nil => simp [setBalanceOfFound, Account.getAccountNumber, Account.setBalance, hacc]
  | cons p pre ih =>
    have hp : p.accountNumber ≠ accNum := hpre p (by simp)
    simp [setBalanceOfFound, Account.getAccountNumber, hp]
    exact ih (fun r hr => hpre r (by simp [hr]))

theorem linkAtTail_eq (head : Registry) (newAccount : Account) :
    linkAtTail head newAccount = head ++ [newAccount] := by
  induction head with
  | nil => rfl
  | cons current next ih => simp [linkAtTail, ih]

/-! ## Comparisons of doubles -/

theorem Double.scaled_zero (base : Int) : Double.scaled false 0 0 base = 0 := by
  simp [Double.scaled]

theorem Double.not_le_zero_of_pos (a : Double) (h : 0 < a) : ¬ a ≤ 0 := by
  intro hle
  cases a with
  | nan => exact absurd h (by decide)
  | inf negative =>
    cases negative
    · exact absurd hle (by decide)
    · exact absurd h (by decide)
  | fin negative mantissa exponent =>
    have h1 : Double.scaled false 0 0 (min 0 exponent) <
        Double.scaled negative mantissa exponent (min 0 exponent) := by
      have : Double.lt (Double.fin false 0 0) (Double.fin negative mantissa exponent) = true := h
      simpa [Double.lt] using this
    have h2 : Double.scaled negative mantissa exponent (min exponent 0) ≤
        Double.scaled false 0 0 (min exponent 0) := by
      have : Double.le (Double.fin negative mantissa exponent) (Double.fin false 0 0) = true := hle
      simpa [Double.le] using this
    rw [Double.scaled_zero] at h1 h2
    rw [min_comm] at h2
    omega

theorem Double.pos_of_not_le_zero (a b : Double) (h0 : ¬ a ≤ 0) (hab : a ≤ b) : 0 < a := by
  cases a with
  | nan =>
    have : Double.le Double.nan b = true := hab
    simp [Double.le] at this
  | inf negative =>
    cases negative
    · decide
    · exact absurd (show Double.inf true ≤ 0 by decide) h0
  | fin negative mantissa exponent =>
    have h2 : ¬ Double.scaled negative mantissa exponent (min exponent 0) ≤
        Double.scaled false 0 0 (min exponent 0) := by
      intro hle
      apply h0
      show Double.le (Double.fin negative mantissa exponent) (Double.fin false 0 0) = true
      simpa [Double.le] using hle
    show Double.lt (Double.fin false 0 0) (Double.fin negative mantissa exponent) = true
    rw [Double.scaled_zero] at h2
    rw [min_comm] at h2
    simp only [Double.lt, Double.scaled_zero, decide_eq_true_eq]
    omega

theorem Double.le_self (a : Double) (h : a ≠ Double.nan) : a ≤ a := by
  cases a with
  | nan => exact absurd rfl h
  | inf negative => cases negative <;> decide
  | fin negative mantissa exponent =>
    show Double.le (Double.fin negative mantissa exponent)
      (Double.fin negative mantissa exponent) = true
    simp [Double.le]

theorem Double.not_le_nan (a : Double) : ¬ a ≤ Double.nan := by
  intro h
  have h1 : Double.le a Double.nan = true := h
  cases a <;> simp [Double.le] at h1

theorem canWithdraw_le (acc : Account) (amount : Money) (h : acc.canWithdraw amount = true) :
    amount ≤ acc.getAvailableBalance := by
  obtain ⟨n, c, b, v⟩ := acc
  cases v <;> simpa [Account.canWithdraw, Account.getAvailableBalance] using h

/-! ## Contracts of the registry operations -/

/-- C1: `withdraw` returns `true` exactly when the amount is positive, a record
numbered `accNum` is in the list and the record the search returns (the first
such) passes `canWithdraw`; on success exactly that record's balance becomes
the old balance minus the amount; on every failure the list is unchanged. -/
theorem withdraw_contract (head : Registry) (accNum : String) (amount : Money) :
    ((withdraw head accNum amount).1 = true ↔
      0 < amount ∧ ∃ acc, acc ∈ head ∧ acc.accountNumber = accNum ∧
        searchByAccountNumber head accNum = some acc ∧ acc.canWithdraw amount = true) ∧
    ((withdraw head accNum amount).1 = true →
      ∃ pre acc post, head = pre ++ acc :: post ∧ (∀ r ∈ pre, r.accountNumber ≠ accNum) ∧
        acc.accountNumber = accNum ∧
        (withdraw head accNum amount).2 =
          pre ++ { acc with balance := acc.balance - amount } :: post) ∧
    ((withdraw head accNum amount).1 = false → (withdraw head accNum amount).2 = head) := by
  unfold withdraw
  by_cases ha : amount ≤ 0
  · have hnp : ¬ 0 < amount := fun h => Double.not_le_zero_of_pos amount h ha
    simp [ha, hnp]
  · cases hs : searchByAccountNumber head accNum with
    | none => simp [ha]
    | some acc =>
      obtain ⟨hmem, hnum⟩ := search_mem head accNum acc hs
      by_cases hc : acc.canWithdraw amount = true
      · have hpos : 0 < amount :=
          Double.pos_of_not_le_zero amount _ ha (canWithdraw_le acc amount hc)
        simp only [ha, hc, if_false, Bool.not_true, Bool.false_eq_true, true_iff, forall_const,
          Option.some.injEq]
        refine ⟨⟨hpos, acc, hmem, hnum, rfl, hc⟩, ?_, by simp⟩
        obtain ⟨pre, post, rfl, hpre, hacc⟩ := (search_eq_some_iff head accNum acc).1 hs
        exact ⟨pre, acc, post, rfl, hpre, hacc,
          setBalanceOfFound_split pre post acc accNum _ hpre hacc⟩
      · simp only [Bool.not_eq_true] at hc
        simp only [ha, hc, if_false, Bool.not_false, if_true, Bool.false_eq_true, false_iff,
          false_implies, implies_true, and_true, Option.some.injEq]
        rintro ⟨-, x, -, -, rfl, hx⟩
        rw [hc] at hx
        exact Bool.false_ne_true hx

/-- C1, the stated example: a Checking record with balance 100 and overdraft
500 accepts a withdrawal of 550, which leaves -450, and then refuses 100. -/
theorem withdraw_contract_witness :
    withdraw [mkCheckingAccount "1001" "Jane Doe" 100 500] "1001" 550 =
      (true, [mkCheckingAccount "1001" "Jane Doe" (-450) 500]) ∧
    (withdraw [mkCheckingAccount "1001" "Jane Doe" (-450) 500] "1001" 100).1 = false ∧
    (withdraw [mkCheckingAccount "1001" "Jane Doe" (-450) 500] "1001" 100).2 =
      [mkCheckingAccount "1001" "Jane Doe" (-450) 500] := by
  have hfail :
      (withdraw [mkCheckingAccount "1001" "Jane Doe" (-450) 500] "1001" 100).1 = false := by
    decide
  refine ⟨?_, hfail, ?_⟩
  · decide
  · exact (withdraw_contract [mkCheckingAccount "1001" "Jane Doe" (-450) 500] "1001" 100).2.2
      hfail

/-- What `deposit` does on doubles: it returns `true` exactly when the test
`amount <= 0` is false and a record numbered `accNum` is in the list; then the
first such record gets the rounded sum of its balance and the amount and
nothing else moves; when the test is true or the number is unknown it returns
`false` and the list is unchanged. -/
theorem deposit_on_doubles (head : Registry) (accNum : String) (amount : Money) :
    ((deposit head accNum amount).1 = true ↔
      ¬ amount ≤ 0 ∧ ∃ r ∈ head, r.accountNumber = accNum) ∧
    ((deposit head accNum amount).1 = true →
      ∃ pre acc post, head = pre ++ acc :: post ∧ (∀ r ∈ pre, r.accountNumber ≠ accNum) ∧
        acc.accountNumber = accNum ∧ searchByAccountNumber head accNum = some acc ∧
        (deposit head accNum amount).2 =
          pre ++ { acc with balance := acc.balance + amount } :: post) ∧
    ((amount ≤ 0 ∨ ∀ r ∈ head, r.accountNumber ≠ accNum) →
      (deposit head accNum amount).1 = false ∧ (deposit head accNum amount).2 = head) := by
  unfold deposit
  by_cases ha : amount ≤ 0
  · simp [ha]
  · cases hs : searchByAccountNumber head accNum with
    | none =>
      have hnone := (search_eq_none_iff head accNum).1 hs
      simp only [ha, if_false, Bool.false_eq_true, false_iff, false_implies, true_and,
        and_self, implies_true, and_true, not_and, not_exists, not_false_eq_true,
        forall_true_left]
      intro r hr hk
      exact hnone r hr hk
    | some acc =>
      obtain ⟨hmem, hnum⟩ := search_mem head accNum acc hs
      obtain ⟨pre, post, hsplit, hpre, hacc⟩ := (search_eq_some_iff head accNum acc).1 hs
      refine ⟨?_, ?_, ?_⟩
      · simp only [ha, if_false, true_iff]
        exact ⟨not_false, acc, hmem, hnum⟩
      · intro _
        refine ⟨pre, acc, post, hsplit, hpre, hacc, rfl, ?_⟩
        simp only [ha, if_false, Account.getBalance]
        rw [hsplit]
        exact setBalanceOfFound_split pre post acc accNum _ hpre hacc
      · rintro (h | h)
        · exact absurd h ha
        · exact absurd hnum (h acc hmem)

/-- C3: `addAccount` returns `false` exactly when some record in the list
already has the new record's number, and then the list is unchanged;
otherwise it returns `true` and the list is the old one with the record
appended at the tail. Hence a second `addAccount` of any record with the same
number returns `false` and changes nothing. -/
theorem addAccount_contract (head : Registry) (newAccount : Account) :
    ((addAccount head newAccount).1 = false ↔
      ∃ r ∈ head, r.accountNumber = newAccount.accountNumber) ∧
    ((addAccount head newAccount).1 = false → (addAccount head newAccount).2 = head) ∧
    ((addAccount head newAccount).1 = true →
      (addAccount head newAccount).2 = head ++ [newAccount]) ∧
    (∀ again : Account, again.accountNumber = newAccount.accountNumber →
      addAccount (addAccount head newAccount).2 again =
        (false, (addAccount head newAccount).2)) := by
  have key : ∀ (l : Registry) (x : Account), (∃ r ∈ l, r.accountNumber = x.accountNumber) →
      addAccount l x = (false, l) := by
    intro l x ⟨r, hr, hk⟩
    unfold addAccount
    cases hs : searchByAccountNumber l x.getAccountNumber with
    | none => exact absurd hk ((search_eq_none_iff l _).1 hs r hr)
    | some acc => rfl
  unfold addAccount
  cases hs : searchByAccountNumber head newAccount.getAccountNumber with
  | none =>
    have hnone := (search_eq_none_iff head _).1 hs
    simp only [Account.getAccountNumber] at hnone
    refine ⟨?_, by simp, fun _ => linkAtTail_eq head newAccount, ?_⟩
    · simp only [Bool.true_eq_false, false_iff, not_exists, not_and]
      exact fun r hr => hnone r hr
    · intro again hagain
      exact key _ again ⟨newAccount, by simp [linkAtTail_eq], hagain.symm⟩
  | some acc =>
    obtain ⟨hmem, hnum⟩ := search_mem head _ acc hs
    refine ⟨?_, fun _ => rfl, by simp, ?_⟩
    · simp only [true_iff]
      exact ⟨acc, hmem, hnum⟩
    · intro again hagain
      exact key _ again ⟨acc, hmem, hnum.trans hagain.symm⟩

/-- C3, an instance: a created record is added to the empty list once; the
second `addAccount` with the same number fails and the list keeps its single
record. -/
theorem addAccount_contract_witness :
    createAccount 1 "1001" "Jane Doe" 100 0 = some (mkAccount "1001" "Jane Doe" 100) ∧
    addAccount [] (mkAccount "1001" "Jane Doe" 100) =
      (true, [mkAccount "1001" "Jane Doe" 100]) ∧
    addAccount (addAccount [] (mkAccount "1001" "Jane Doe" 100)).2
        (mkAccount "1001" "Jane Doe" 100) =
      (false, [mkAccount "1001" "Jane Doe" 100]) := by
  refine ⟨?_, by decide, ?_⟩
  · simp [createAccount, isValid]
    decide
  · exact (addAccount_contract [] (mkAccount "1001" "Jane Doe" 100)).2.2.2 _ rfl

/-! ## The fuel of the load loop is never the limit -/

theorem readStringField_length (pfx old : String) (inFile : List String) :
    (readStringField pfx old inFile).2.length ≤ inFile.length := by
  cases inFile with
  | nil => simp [readStringField]
  | cons line rest =>
    simp only [readStringField]
    split <;> simp

theorem readNumberField_length (stod : String → Option Money) (pfx : String) (old v : Money)
    (inFile rest : List String) (h : readNumberField stod pfx old inFile = some (v, rest)) :
    rest.length ≤ inFile.length := by
  cases inFile with
  | nil =>
    simp only [readNumberField, Option.some.injEq, Prod.mk.injEq] at h
    simp [← h.2]
  | cons line tl =>
    simp only [readNumberField] at h
    split at h
    · split at h
      · exact absurd h (by simp)
      · simp only [Option.some.injEq, Prod.mk.injEq] at h
        simp [← h.2]
    · simp only [Option.some.injEq, Prod.mk.injEq] at h
      simp [← h.2]

theorem skipLine_length (inFile : List String) : (skipLine inFile).length ≤ inFile.length := by
  cases inFile <;> simp [skipLine]

theorem loadLoop_fuel_irrelevant (stod : String → Option Money) (n : Nat) :
    ∀ (m : Nat) (vars : LoadVars) (head : Registry) (inFile : List String),
      inFile.length ≤ n → inFile.length ≤ m →
      loadLoop stod n vars head inFile = loadLoop stod m vars head inFile := by
  induction n with
  | zero =>
    intro m vars head inFile hn _
    have : inFile = [] := List.length_eq_zero.1 (Nat.le_zero.1 hn)
    subst this
    cases m <;> rfl
  | succ n ih =>
    intro m vars head inFile hn hm
    cases inFile with
    | nil => cases m <;> rfl
    | cons line inFile =>
      cases m with
      | zero => simp at hm
      | succ m =>
        simp only [List.length_cons, Nat.add_le_add_iff_right] at hn hm
        have h1 := readStringField_length "NUMBER:" vars.number inFile
        have h2 := readStringField_length "NAME:" vars.name
          (readStringField "NUMBER:" vars.number inFile).2
        simp only [loadLoop]
        split
        · split
          · rfl
          · rename_i balance rest hb
            have h3 := readNumberField_length _ _ _ _ _ _ hb
            have h4 := skipLine_length rest
            split
            · exact ih _ _ _ _ (by omega) (by omega)
            · split
              · split
                · rfl
                · rename_i rate rest2 hr
                  have h5 := readNumberField_length _ _ _ _ _ _ hr
                  have h6 := skipLine_length rest2
                  exact ih _ _ _ _ (by omega) (by omega)
              · split
                · split
                  · rfl
                  · rename_i limit rest2 hr
                    have h5 := readNumberField_length _ _ _ _ _ _ hr
                    have h6 := skipLine_length rest2
                    exact ih _ _ _ _ (by omega) (by omega)
                · exact ih _ _ _ _ (by omega) (by omega)
        · rfl

/-! ## Key uniqueness -/

theorem uniqueKeys_iff_nodup (head : Registry) :
    UniqueKeys head ↔ (head.map Account.accountNumber).Nodup := by
  unfold UniqueKeys List.Nodup
  rw [List.pairwise_map]

theorem setBalanceOfFound_numbers (head : Registry) (accNum : String) (v : Money) :
    (setBalanceOfFound head accNum v).map Account.accountNumber =
      head.map Account.accountNumber := by
  induction head with
  | nil => rfl
  | cons current next ih =>
    by_cases h : current.getAccountNumber = accNum
    · simp [setBalanceOfFound, h, Account.setBalance]
    · simp [setBalanceOfFound, h, ih]

theorem deleteAccount_eq_unlinkAfter (head : Registry) (accNum : String) :
    deleteAccount head accNum = unlinkAfter head accNum := by
  cases head <;> rfl

theorem unlinkAfter_sublist (head : Registry) (accNum : String) :
    (unlinkAfter head accNum).2.Sublist head := by
  induction head with
  | nil => simp [unlinkAfter]
  | cons current next ih =>
    by_cases h : current.getAccountNumber = accNum
    · simp [unlinkAfter, h]
    · simp [unlinkAfter, h, ih]

theorem uniqueKeys_addAccount (head : Registry) (newAccount : Account)
    (h : UniqueKeys head) : UniqueKeys (addAccount head newAccount).2 := by
  unfold addAccount
  cases hs : searchByAccountNumber head newAccount.getAccountNumber with
  | some acc => exact h
  | none =>
    have hnone := (search_eq_none_iff head _).1 hs
    simp only [linkAtTail_eq]
    unfold UniqueKeys at h ⊢
    rw [List.pairwise_append]
    refine ⟨h, List.pairwise_singleton _ _, ?_⟩
    intro a ha b hb
    rw [List.mem_singleton] at hb
    subst hb
    exact hnone a ha

theorem uniqueKeys_deleteAccount (head : Registry) (accNum : String)
    (h : UniqueKeys head) : UniqueKeys (deleteAccount head accNum).2 := by
  rw [deleteAccount_eq_unlinkAfter]
  exact List.Pairwise.sublist (unlinkAfter_sublist head accNum) h

theorem uniqueKeys_setBalanceOfFound (head : Registry) (accNum : String) (v : Money)
    (h : UniqueKeys head) : UniqueKeys (setBalanceOfFound head accNum v) := by
  rw [uniqueKeys_iff_nodup] at h ⊢
  rwa [setBalanceOfFound_numbers]

theorem uniqueKeys_deposit (head : Registry) (accNum : String) (amount : Money)
    (h : UniqueKeys head) : UniqueKeys (deposit head accNum amount).2 := by
  unfold deposit
  split
  · exact h
  · split
    · exact h
    · exact uniqueKeys_setBalanceOfFound _ _ _ h

theorem uniqueKeys_withdraw (head : Registry) (accNum : String) (amount : Money)
    (h : UniqueKeys head) : UniqueKeys (withdraw head accNum amount).2 := by
  unfold withdraw
  split
  · exact h
  · split
    · exact h
    · split
      · exact h
      · exact uniqueKeys_setBalanceOfFound _ _ _ h

theorem uniqueKeys_loadLoop (stod : String → Option Money) (fuel : Nat) :
    ∀ (vars : LoadVars) (head : Registry) (inFile : List String), UniqueKeys head →
      UniqueKeys (loadLoop stod fuel vars head inFile).head := by
  induction fuel with
  | zero => intro vars head inFile h; exact h
  | succ fuel ih =>
    intro vars head inFile h
    cases inFile with
    | nil => exact h
    | cons line inFile =>
      simp only [loadLoop]
      split
      · split
        · exact h
        · split
          · exact ih _ _ _ (uniqueKeys_addAccount _ _ h)
          · split
            · split
              · exact h
              · exact ih _ _ _ (uniqueKeys_addAccount _ _ h)
            · split
              · split
                · exact h
                · exact ih _ _ _ (uniqueKeys_addAccount _ _ h)
              · exact ih _ _ _ h
      · exact h

theorem uniqueKeys_apply (stod : String → Option Money) (head : Registry) (op : Op)
    (h : UniqueKeys head) : UniqueKeys (op.apply stod head) := by
  cases op with
  | addAccount newAccount => exact uniqueKeys_addAccount _ _ h
  | deleteAccount accNum => exact uniqueKeys_deleteAccount _ _ h
  | deposit accNum amount => exact uniqueKeys_deposit _ _ _ h
  | withdraw accNum amount => exact uniqueKeys_withdraw _ _ _ h
  | loadAccountsFromFile balance0 rate0 limit0 file =>
    cases file with
    | none => exact h
    | some inFile => exact uniqueKeys_loadLoop stod _ _ _ _ h

/-- C4: key uniqueness is an invariant. Starting from the empty list, after
any sequence of `addAccount`, `deleteAccount`, `deposit`, `withdraw` and
`loadAccountsFromFile` calls (any file content, any behaviour of `stod`, any
starting values of the uninitialised locals) no two records of the list have
the same account number. -/
theorem uniqueKeys_invariant (stod : String → Option Money) (ops : List Op) :
    UniqueKeys (runOps stod [] ops) ∧
    ∀ i j : Fin (runOps stod [] ops).length, i ≠ j →
      ((runOps stod [] ops).get i).accountNumber ≠
        ((runOps stod [] ops).get j).accountNumber := by
  have hinv : ∀ (ops : List Op) (head : Registry), UniqueKeys head →
      UniqueKeys (runOps stod head ops) := by
    intro ops
    induction ops with
    | nil => intro head h; exact h
    | cons op ops ih =>
      intro head h
      exact ih _ (uniqueKeys_apply stod head op h)
  have hu : UniqueKeys (runOps stod [] ops) := hinv ops [] List.Pairwise.nil
  refine ⟨hu, ?_⟩
  intro i j hij heq
  have hnd := (uniqueKeys_iff_nodup _).1 hu
  have hlen : (List.map Account.accountNumber (runOps stod [] ops)).length =
      (runOps stod [] ops).length := List.length_map _ _
  have := (List.Nodup.get_inj_iff hnd (i := Fin.cast hlen.symm i) (j := Fin.cast hlen.symm j)).1
    (by simpa using heq)
  exact hij (by simpa [Fin.ext_iff] using this)

/-! ## Deletion and lookup -/

theorem unlinkAfter_absent (head : Registry) (accNum : String)
    (h : ∀ r ∈ head, r.accountNumber ≠ accNum) : unlinkAfter head accNum = (false, head) := by
  induction head with
  | nil => rfl
  | cons current next ih =>
    have hc : current.accountNumber ≠ accNum := h current (by simp)
    have hn := ih (fun r hr => h r (by simp [hr]))
    simp [unlinkAfter, Account.getAccountNumber, hc, hn]

theorem unlinkAfter_split (pre post : Registry) (acc : Account) (accNum : String)
    (hpre : ∀ r ∈ pre, r.accountNumber ≠ accNum) (hacc : acc.accountNumber = accNum) :
    unlinkAfter (pre ++ acc :: post) accNum = (true, pre ++ post) := by
  induction pre with
  | nil => simp [unlinkAfter, Account.getAccountNumber, hacc]
  | cons p pre ih =>
    have hp : p.accountNumber ≠ accNum := hpre p (by simp)
    have hn := ih (fun r hr => hpre r (by simp [hr]))
    simp [unlinkAfter, Account.getAccountNumber, hp, hn]

theorem exists_first_split (head : Registry) (accNum : String)
    (h : ∃ r ∈ head, r.accountNumber = accNum) :
    ∃ pre acc post, head = pre ++ acc :: post ∧ (∀ r ∈ pre, r.accountNumber ≠ accNum) ∧
      acc.accountNumber = accNum := by
  cases hs : searchByAccountNumber head accNum with
  | none =>
    obtain ⟨r, hr, hk⟩ := h
    exact absurd hk ((search_eq_none_iff head accNum).1 hs r hr)
  | some acc =>
    obtain ⟨pre, post, hsplit, hpre, hacc⟩ := (search_eq_some_iff head accNum acc).1 hs
    exact ⟨pre, acc, post, hsplit, hpre, hacc⟩

/-- C5: `deleteAccount` returns `true` exactly when a record numbered `accNum`
is in the list; on success the list is the old one with the first such record
erased, every other record kept in place and order (the erased record may be
first, in the middle or last); when the number is absent, the empty list
included, it returns `false` and the list is unchanged. -/
theorem deleteAccount_contract (head : Registry) (accNum : String) :
    ((deleteAccount head accNum).1 = true ↔ ∃ r ∈ head, r.accountNumber = accNum) ∧
    ((deleteAccount head accNum).1 = true →
      ∃ pre acc post, head = pre ++ acc :: post ∧ (∀ r ∈ pre, r.accountNumber ≠ accNum) ∧
        acc.accountNumber = accNum ∧ (deleteAccount head accNum).2 = pre ++ post) ∧
    ((deleteAccount head accNum).2 = head.eraseP (fun r => decide (r.accountNumber = accNum))) ∧
    ((∀ r ∈ head, r.accountNumber ≠ accNum) → deleteAccount head accNum = (false, head)) ∧
    deleteAccount [] accNum = (false, []) := by
  rw [deleteAccount_eq_unlinkAfter]
  by_cases h : ∃ r ∈ head, r.accountNumber = accNum
  · obtain ⟨pre, acc, post, rfl, hpre, hacc⟩ := exists_first_split head accNum h
    rw [unlinkAfter_split pre post acc accNum hpre hacc]
    refine ⟨⟨fun _ => h, fun _ => rfl⟩, fun _ => ⟨pre, acc, post, rfl, hpre, hacc, rfl⟩,
      ?_, ?_, rfl⟩
    · rw [List.eraseP_append_right _ (by simpa using hpre)]
      simp [List.eraseP_cons, hacc]
    · intro habs
      exact absurd hacc (habs acc (by simp))
  · have habs : ∀ r ∈ head, r.accountNumber ≠ accNum := fun r hr hk => h ⟨r, hr, hk⟩
    rw [unlinkAfter_absent head accNum habs]
    refine ⟨by simp [h], by simp, ?_, fun _ => rfl, rfl⟩
    rw [List.eraseP_of_forall_not (by simpa using habs)]

/-- C5, instances: erasing the first, a middle and the last record keeps the
others in order; an absent number and the empty list give `false`. -/
theorem deleteAccount_contract_witness :
    deleteAccount [mkAccount "101" "Ann" 1, mkAccount "102" "Bob" 2, mkAccount "103" "Cy" 3]
        "101" = (true, [mkAccount "102" "Bob" 2, mkAccount "103" "Cy" 3]) ∧
    deleteAccount [mkAccount "101" "Ann" 1, mkAccount "102" "Bob" 2, mkAccount "103" "Cy" 3]
        "102" = (true, [mkAccount "101" "Ann" 1, mkAccount "103" "Cy" 3]) ∧
    deleteAccount [mkAccount "101" "Ann" 1, mkAccount "102" "Bob" 2, mkAccount "103" "Cy" 3]
        "103" = (true, [mkAccount "101" "Ann" 1, mkAccount "102" "Bob" 2]) ∧
    deleteAccount [mkAccount "101" "Ann" 1, mkAccount "102" "Bob" 2, mkAccount "103" "Cy" 3]
        "104" = (false,
          [mkAccount "101" "Ann" 1, mkAccount "102" "Bob" 2, mkAccount "103" "Cy" 3]) := by
  refine ⟨by decide, by decide, by decide, ?_⟩
  exact (deleteAccount_contract _ "104").2.2.2.1 (by decide)

/-- C6: `searchByAccountNumber` returns the first record, in list order, whose
number equals `accNum` (every record before it has another number), and it
returns `none` exactly when no record of the list has that number. The
function reads the list only: the source body has no write, so the model has
no list output. -/
theorem searchByAccountNumber_contract (head : Registry) (accNum : String) :
    (∀ acc, searchByAccountNumber head accNum = some acc ↔
      ∃ pre post, head = pre ++ acc :: post ∧ (∀ r ∈ pre, r.accountNumber ≠ accNum) ∧
        acc.accountNumber = accNum) ∧
    (searchByAccountNumber head accNum = none ↔ ∀ r ∈ head, r.accountNumber ≠ accNum) ∧
    searchByAccountNumber head accNum =
      head.find? (fun r => decide (r.accountNumber = accNum)) := by
  refine ⟨search_eq_some_iff head accNum, search_eq_none_iff head accNum, ?_⟩
  induction head with
  | nil => rfl
  | cons current next ih =>
    by_cases h : current.accountNumber = accNum
    · simp [searchByAccountNumber, Account.getAccountNumber, h]
    · simp [searchByAccountNumber, Account.getAccountNumber, h, ih]

/-! ## Creation -/

theorem isValid_number_iff (str : String) :
    isValid str false = true ↔ 3 ≤ str.length ∧ ∀ ch ∈ str.data, ch.isDigit = true := by
  unfold isValid
  by_cases hlen : str.length < 3
  · simp [hlen, Nat.not_le.2 hlen]
  · have hne : str.data ≠ [] := by
      intro h
      apply hlen
      show str.data.length < 3
      rw [h]
      decide
    simp [hlen, hne, Nat.not_lt.1 hlen]

theorem isValid_name_iff (str : String) :
    isValid str true = true ↔
      2 ≤ str.length ∧ (∀ ch ∈ str.data, ch.isAlpha = true ∨ ch = ' ') ∧
        ∃ ch ∈ str.data, ch.isAlpha = true := by
  unfold isValid
  by_cases hlen : str.length < 2
  · simp [hlen, Nat.not_le.2 hlen]
  · have hne : str.data ≠ [] := by
      intro h
      apply hlen
      show str.data.length < 2
      rw [h]
      decide
    simp [hlen, hne, Nat.not_lt.1 hlen]
    intro _ _ _
    refine forall_congr' fun ch => forall_congr' fun _ => ?_
    cases ch.isAlpha <;> simp

/-- When `createAccount` returns a record, on doubles: for a selector in
{1, 2, 3}, exactly when the account number has at least 3 characters, all
digits, the customer name has at least 2 characters, all letters or spaces, at
least one a letter, and the test `balance < 0` is false; otherwise it returns
`nullptr`. -/
theorem createAccount_on_doubles (type : Int) (accNum custName : String)
    (balance extra : Money) (htype : type = 1 ∨ type = 2 ∨ type = 3) :
    ((createAccount type accNum custName balance extra).isSome = true ↔
      (3 ≤ accNum.length ∧ ∀ ch ∈ accNum.data, ch.isDigit = true) ∧
      (2 ≤ custName.length ∧ (∀ ch ∈ custName.data, ch.isAlpha = true ∨ ch = ' ') ∧
        ∃ ch ∈ custName.data, ch.isAlpha = true) ∧
      ¬ balance < 0) ∧
    ((createAccount type accNum custName balance extra).isSome = false ↔
      createAccount type accNum custName balance extra = none) := by
  refine ⟨?_, by cases createAccount type accNum custName balance extra <;> simp⟩
  rw [← isValid_number_iff, ← isValid_name_iff]
  unfold createAccount
  by_cases h1 : isValid accNum false = true
  · by_cases h2 : isValid custName true = true
    · by_cases h3 : balance < 0
      · simp [h1, h2, h3]
      · rcases htype with rfl | rfl | rfl <;> simp [h1, h2, h3]
    · simp [h2]
  · simp [h1]

/-- C8: when `createAccount` returns a record, the record carries exactly the
given number, name and balance and the variant the selector asks for; a
Savings record stores the supplied rate if it is positive and 2.5 otherwise, a
Checking record stores the supplied overdraft if it is not negative and 500
otherwise; so a created Savings record has a positive rate and a created
Checking record a non-negative overdraft limit. -/
theorem createAccount_result (type : Int) (accNum custName : String) (balance extra : Money)
    (acc : Account) (h : createAccount type accNum custName balance extra = some acc) :
    acc.accountNumber = accNum ∧ acc.customerName = custName ∧ acc.balance = balance ∧
    (type = 1 ∨ type = 2 ∨ type = 3) ∧
    (type = 1 → acc.variant = .basic) ∧
    (type = 2 → acc.variant = .savings (if extra > 0 then extra else 2.5)) ∧
    (type = 3 → acc.variant = .checking (if extra ≥ 0 then extra else 500)) ∧
    (∀ rate, acc.variant = .savings rate → 0 < rate) ∧
    (∀ limit, acc.variant = .checking limit → 0 ≤ limit) := by
  unfold createAccount at h
  split at h
  · exact absurd h (by simp)
  · split at h
    · rename_i h1
      subst h1
      simp only [Option.some.injEq] at h
      subst h
      simp [mkAccount]
    · split at h
      · rename_i h1 h2
        subst h2
        simp only [Option.some.injEq] at h
        subst h
        simp only [mkSavingsAccount, Variant.savings.injEq, true_and]
        refine ⟨by decide, fun h => absurd h (by decide), by simp,
          fun h => absurd h (by decide), ?_, by simp⟩
        rintro rate rfl
        split
        · assumption
        · decide
      · split at h
        · rename_i h1 h2 h3
          subst h3
          simp only [Option.some.injEq] at h
          subst h
          simp only [mkCheckingAccount, Variant.checking.injEq, true_and]
          refine ⟨by decide, fun h => absurd h (by decide), fun h => absurd h (by decide),
            by simp, by simp, ?_⟩
          rintro limit rfl
          split
          · assumption
          · decide
        · exact absurd h (by simp)

/-- C8, the stated examples: a Savings record created with rate -1 or rate 0
stores 2.5; a Checking record created with overdraft -1 stores 500 and with
overdraft 0 stores 0. -/
theorem createAccount_result_witness :
    createAccount 2 "1001" "Jane Doe" 100 (-1) =
      some (mkSavingsAccount "1001" "Jane Doe" 100 2.5) ∧
    createAccount 2 "1001" "Jane Doe" 100 0 =
      some (mkSavingsAccount "1001" "Jane Doe" 100 2.5) ∧
    createAccount 3 "1001" "Jane Doe" 100 (-1) =
      some (mkCheckingAccount "1001" "Jane Doe" 100 500) ∧
    createAccount 3 "1001" "Jane Doe" 100 0 =
      some (mkCheckingAccount "1001" "Jane Doe" 100 0) ∧
    (mkSavingsAccount "1001" "Jane Doe" 100 2.5).variant =
      .savings (if (-1 : Money) > 0 then -1 else 2.5) := by
  have e1 : createAccount 2 "1001" "Jane Doe" 100 (-1) =
      some (mkSavingsAccount "1001" "Jane Doe" 100 2.5) := by decide
  exact ⟨e1, by decide, by decide, by decide,
    (createAccount_result 2 "1001" "Jane Doe" 100 (-1) _ e1).2.2.2.2.2.1 rfl⟩

/-- C9: `canWithdraw(amount)` is `amount <= balance` for a Basic and for a
Savings record, whatever the interest rate, and `amount <= balance +
overdraftLimit` for a Checking record. It is a `const` member and a function
of the record only. -/
theorem canWithdraw_rule (accNum custName : String) (balance amount : Money) :
    ((mkAccount accNum custName balance).canWithdraw amount = true ↔ amount ≤ balance) ∧
    (∀ rate, (mkSavingsAccount accNum custName balance rate).canWithdraw amount = true ↔
      amount ≤ balance) ∧
    (∀ overdraft,
      (mkCheckingAccount accNum custName balance overdraft).canWithdraw amount = true ↔
        amount ≤ balance + overdraft) ∧
    (∀ acc : Account, acc.canWithdraw amount = true ↔
      (acc.variant = .basic ∧ amount ≤ acc.balance) ∨
      (∃ rate, acc.variant = .savings rate ∧ amount ≤ acc.balance) ∨
      (∃ overdraft, acc.variant = .checking overdraft ∧ amount ≤ acc.balance + overdraft)) := by
  refine ⟨by simp [Account.canWithdraw, mkAccount],
    by simp [Account.canWithdraw, mkSavingsAccount],
    by simp [Account.canWithdraw, mkCheckingAccount], ?_⟩
  rintro ⟨n, c, b, v⟩
  cases v <;> simp [Account.canWithdraw]

/-- C10: `getAvailableBalance()` is the balance for Basic and Savings and
balance plus overdraft limit for Checking, and it is the largest amount
`canWithdraw` accepts: `canWithdraw(amount)` holds exactly when `amount` is at
most the available balance. The available balance itself is accepted unless
it is NaN, and then no amount is. -/
theorem getAvailableBalance_rule (acc : Account) :
    (acc.variant = .basic → acc.getAvailableBalance = acc.balance) ∧
    (∀ rate, acc.variant = .savings rate → acc.getAvailableBalance = acc.balance) ∧
    (∀ overdraft, acc.variant = .checking overdraft →
      acc.getAvailableBalance = acc.balance + overdraft) ∧
    (∀ amount, acc.canWithdraw amount = true ↔ amount ≤ acc.getAvailableBalance) ∧
    (acc.getAvailableBalance ≠ Double.nan →
      acc.canWithdraw acc.getAvailableBalance = true) ∧
    (acc.getAvailableBalance = Double.nan → ∀ amount, acc.canWithdraw amount = false) := by
  have hiff : ∀ amount, acc.canWithdraw amount = true ↔ amount ≤ acc.getAvailableBalance := by
    intro amount
    obtain ⟨n, c, b, v⟩ := acc
    cases v <;> simp [Account.getAvailableBalance, Account.canWithdraw]
  refine ⟨?_, ?_, ?_, hiff, ?_, ?_⟩
  · intro h
    simp [Account.getAvailableBalance, h]
  · intro rate h
    simp [Account.getAvailableBalance, h]
  · intro overdraft h
    simp [Account.getAvailableBalance, h]
  · intro h
    exact (hiff _).2 (Double.le_self _ h)
  · intro h amount
    rw [← Bool.not_eq_true, hiff, h]
    exact Double.not_le_nan amount

/-- C10, an instance: a Checking record with balance 100 and overdraft limit
500 has the available balance 600, which `canWithdraw` accepts. -/
theorem getAvailableBalance_rule_witness :
    (mkCheckingAccount "1001" "Jane Doe" 100 500).getAvailableBalance = 600 ∧
    (mkCheckingAccount "1001" "Jane Doe" 100 500).canWithdraw 600 = true := by
  have h := (getAvailableBalance_rule (mkCheckingAccount "1001" "Jane Doe" 100 500)).2.2.2.2.1
    (by decide)
  exact ⟨by decide, h⟩

/-! ## The text written by `saveAccountsToFile` -/

theorem splitLines_line (line rest : List Char) (h : '\n' ∉ line) :
    splitLines (line ++ '\n' :: rest) = line :: splitLines rest := by
  induction line with
  | nil => simp [splitLines]
  | cons c cs ih =>
    have hc : c ≠ '\n' := fun hc => h (by simp [hc])
    have hcs : '\n' ∉ cs := fun hcs => h (by simp [hcs])
    simp [splitLines, hc, ih hcs]

theorem fileLines_line (line rest : String) (h : NoLineFeed line) :
    fileLines (line ++ "\n" ++ rest) = line :: fileLines rest := by
  unfold fileLines
  have hdata : (line ++ "\n" ++ rest).data = line.data ++ '\n' :: rest.data := by
    simp [String.data_append]
  rw [hdata, splitLines_line _ _ h]
  rfl

theorem unlines_append (xs ys : List String) :
    unlines (xs ++ ys) = unlines xs ++ unlines ys := by
  induction xs with
  | nil => simp [unlines]
  | cons x xs ih => simp [unlines, ih, String.append_assoc]

theorem fileLines_unlines (lines : List String) (rest : String)
    (h : ∀ line ∈ lines, NoLineFeed line) :
    fileLines (unlines lines ++ rest) = lines ++ fileLines rest := by
  induction lines with
  | nil => simp [unlines]
  | cons x xs ih =>
    have hx : NoLineFeed x := h x (by simp)
    have hxs := ih (fun line hl => h line (by simp [hl]))
    simp only [unlines, String.append_assoc, List.cons_append]
    rw [← String.append_assoc, fileLines_line _ _ hx, hxs]

theorem writeAccount_eq_unlines (fmt : Money → String) (acc : Account) :
    writeAccount fmt acc = unlines (blockLines fmt acc) := by
  have h1 : "\nNUMBER:".data = "\n".data ++ "NUMBER:".data := by decide
  have h2 : "\nNAME:".data = "\n".data ++ "NAME:".data := by decide
  have h3 : "\nBALANCE:".data = "\n".data ++ "BALANCE:".data := by decide
  have h4 : "----------\n".data = "----------".data ++ "\n".data := by decide
  have h5 : "".data = [] := rfl
  obtain ⟨n, c, b, v⟩ := acc
  apply String.ext
  cases v <;>
    simp only [writeAccount, blockLines, unlines, String.data_append, h1, h2, h3, h4, h5,
      List.append_assoc, List.cons_append, List.nil_append, List.append_nil,
      Account.getAccountNumber, Account.getCustomerName, Account.getBalance]

theorem saveAccountsToFile_eq_unlines (fmt : Money → String) (head : Registry) :
    saveAccountsToFile fmt head = unlines (head.flatMap (blockLines fmt)) := by
  induction head with
  | nil => rfl
  | cons current next ih =>
    simp only [saveAccountsToFile, List.flatMap_cons, unlines_append, ih, writeAccount_eq_unlines]

/-! ## Reading back one block -/

theorem substr_append_left (p s : String) : substr (p ++ s) 0 p.length = p := by
  apply String.ext
  show List.take p.data.length (List.drop 0 (p ++ s).data) = p.data
  rw [String.data_append, List.drop_zero, List.take_left']
  rfl

theorem substrFrom_append_left (p s : String) : substrFrom (p ++ s) p.length = s := by
  apply String.ext
  show List.drop p.data.length (p ++ s).data = s.data
  rw [String.data_append, List.drop_left']
  rfl

theorem readStringField_hit (pfx old value : String) (rest : List String) :
    readStringField pfx old ((pfx ++ value) :: rest) = (value, rest) := by
  simp [readStringField, substr_append_left, substrFrom_append_left]

theorem readNumberField_hit (stod : String → Option Money) (pfx text : String)
    (old v : Money) (rest : List String) (h : stod text = some v) :
    readNumberField stod pfx old ((pfx ++ text) :: rest) = some (v, rest) := by
  simp [readNumberField, substr_append_left, substrFrom_append_left, h]

theorem loadLoop_block (fmt : Money → String) (stod : String → Option Money)
    (acc : Account) (hnum : ∀ v ∈ acc.numbers, stod (fmt v) = some v)
    (fuel : Nat) (vars : LoadVars) (head : Registry) (rest : List String) :
    ∃ vars', loadLoop stod (fuel + 1) vars head (blockLines fmt acc ++ rest) =
      loadLoop stod fuel vars' (addAccount head acc).2 rest := by
  have ht : ∀ t, substr ("TYPE:" ++ t) 0 5 = "TYPE:" := fun t => substr_append_left "TYPE:" t
  have hf : ∀ t, substrFrom ("TYPE:" ++ t) 5 = t := fun t => substrFrom_append_left "TYPE:" t
  have e1 : ("Savings Account" = "Basic Account") = False := by decide
  have e2 : ("Checking Account" = "Basic Account") = False := by decide
  have e3 : ("Checking Account" = "Savings Account") = False := by decide
  obtain ⟨n, c, b, v⟩ := acc
  cases v with
  | basic =>
    have hb : stod (fmt b) = some b := hnum b (by simp [Account.numbers])
    refine ⟨{ vars with type := "Basic Account", number := n, name := c, balance := b }, ?_⟩
    rw [show blockLines fmt ⟨n, c, b, .basic⟩ ++ rest =
      ("TYPE:" ++ "Basic Account") :: ("NUMBER:" ++ n) :: ("NAME:" ++ c) ::
        ("BALANCE:" ++ fmt b) :: "----------" :: rest from rfl]
    simp only [loadLoop, ht, hf, if_true, readStringField_hit,
      readNumberField_hit stod "BALANCE:" (fmt b) _ b _ hb, skipLine]
    rfl
  | savings rate =>
    have hb : stod (fmt b) = some b := hnum b (by simp [Account.numbers])
    have hr : stod (fmt rate) = some rate := hnum rate (by simp [Account.numbers])
    refine ⟨{ vars with
      type := "Savings Account", number := n, name := c, balance := b, rate := rate }, ?_⟩
    rw [show blockLines fmt ⟨n, c, b, .savings rate⟩ ++ rest =
      ("TYPE:" ++ "Savings Account") :: ("NUMBER:" ++ n) :: ("NAME:" ++ c) ::
        ("BALANCE:" ++ fmt b) :: ("INTEREST_RATE:" ++ fmt rate) :: "----------" :: rest from rfl]
    simp only [loadLoop, ht, hf, if_true, if_false, e1, readStringField_hit,
      readNumberField_hit stod "BALANCE:" (fmt b) _ b _ hb,
      readNumberField_hit stod "INTEREST_RATE:" (fmt rate) _ rate _ hr, skipLine]
    rfl
  | checking limit =>
    have hb : stod (fmt b) = some b := hnum b (by simp [Account.numbers])
    have hl : stod (fmt limit) = some limit := hnum limit (by simp [Account.numbers])
    refine ⟨{ vars with
      type := "Checking Account", number := n, name := c, balance := b, limit := limit }, ?_⟩
    rw [show blockLines fmt ⟨n, c, b, .checking limit⟩ ++ rest =
      ("TYPE:" ++ "Checking Account") :: ("NUMBER:" ++ n) :: ("NAME:" ++ c) ::
        ("BALANCE:" ++ fmt b) :: ("OVERDRAFT_LIMIT:" ++ fmt limit) :: "----------" :: rest
      from rfl]
    simp only [loadLoop, ht, hf, if_true, if_false, e2, e3, readStringField_hit,
      readNumberField_hit stod "BALANCE:" (fmt b) _ b _ hb,
      readNumberField_hit stod "OVERDRAFT_LIMIT:" (fmt limit) _ limit _ hl, skipLine]
    rfl

/-! ## Reading back a whole file -/

theorem loadLoop_nil (stod : String → Option Money) (fuel : Nat) (vars : LoadVars)
    (head : Registry) : loadLoop stod fuel vars head [] = .finished head := by
  cases fuel <;> rfl

theorem loadLoop_blocks (fmt : Money → String) (stod : String → Option Money)
    (recs : List Account) (hnum : ∀ acc ∈ recs, ∀ v ∈ acc.numbers, stod (fmt v) = some v) :
    ∀ (fuel : Nat) (vars : LoadVars) (head : Registry) (rest : List String),
      ∃ vars', loadLoop stod (fuel + recs.length) vars head
          (recs.flatMap (blockLines fmt) ++ rest) =
        loadLoop stod fuel vars' (recs.foldl (fun h r => (addAccount h r).2) head) rest := by
  induction recs with
  | nil => intro fuel vars head rest; exact ⟨vars, rfl⟩
  | cons r rs ih =>
    intro fuel vars head rest
    obtain ⟨vars1, h1⟩ := loadLoop_block fmt stod r (hnum r (by simp)) (fuel + rs.length) vars
      head (rs.flatMap (blockLines fmt) ++ rest)
    obtain ⟨vars2, h2⟩ := ih (fun acc ha => hnum acc (by simp [ha])) fuel vars1
      (addAccount head r).2 rest
    refine ⟨vars2, ?_⟩
    rw [List.flatMap_cons, List.append_assoc, List.length_cons, ← Nat.add_assoc, h1, h2]
    rfl

theorem foldl_addAccount_unique (recs head : Registry) (h : UniqueKeys (head ++ recs)) :
    recs.foldl (fun h r => (addAccount h r).2) head = head ++ recs := by
  induction recs generalizing head with
  | nil => simp
  | cons r rs ih =>
    have hfresh : ∀ a ∈ head, a.accountNumber ≠ r.accountNumber := by
      intro a ha
      unfold UniqueKeys at h
      rw [List.pairwise_append] at h
      exact h.2.2 a ha r (by simp)
    have hadd : (addAccount head r).2 = head ++ [r] := by
      unfold addAccount
      have hnone : searchByAccountNumber head r.getAccountNumber = none :=
        (search_eq_none_iff head _).2 hfresh
      rw [hnone]
      exact linkAtTail_eq head r
    rw [List.foldl_cons, hadd, ih (head ++ [r]) (by simpa using h)]
    simp

theorem noLineFeed_append (a b : String) (ha : NoLineFeed a) (hb : NoLineFeed b) :
    NoLineFeed (a ++ b) := by
  unfold NoLineFeed at *
  simp [String.data_append, ha, hb]

theorem blockLines_noLineFeed (fmt : Money → String) (acc : Account)
    (hn : NoLineFeed acc.accountNumber) (hc : NoLineFeed acc.customerName)
    (hv : ∀ v ∈ acc.numbers, NoLineFeed (fmt v)) :
    ∀ line ∈ blockLines fmt acc, NoLineFeed line := by
  have p1 : NoLineFeed "TYPE:" := by decide
  have p2 : NoLineFeed "NUMBER:" := by decide
  have p3 : NoLineFeed "NAME:" := by decide
  have p4 : NoLineFeed "BALANCE:" := by decide
  have p5 : NoLineFeed "INTEREST_RATE:" := by decide
  have p6 : NoLineFeed "OVERDRAFT_LIMIT:" := by decide
  have p7 : NoLineFeed "----------" := by decide
  have t1 : NoLineFeed "Basic Account" := by decide
  have t2 : NoLineFeed "Savings Account" := by decide
  have t3 : NoLineFeed "Checking Account" := by decide
  obtain ⟨n, c, b, v⟩ := acc
  cases v with
  | basic =>
    have hb := hv b (by simp [Account.numbers])
    intro line hl
    simp only [blockLines, Account.getAccountType, List.append_nil, List.cons_append,
      List.nil_append, List.mem_cons, List.mem_singleton, List.not_mem_nil, or_false] at hl
    rcases hl with rfl | rfl | rfl | rfl | rfl
    · exact noLineFeed_append _ _ p1 t1
    · exact noLineFeed_append _ _ p2 hn
    · exact noLineFeed_append _ _ p3 hc
    · exact noLineFeed_append _ _ p4 hb
    · exact p7
  | savings rate =>
    have hb := hv b (by simp [Account.numbers])
    have hr := hv rate (by simp [Account.numbers])
    intro line hl
    simp only [blockLines, Account.getAccountType, List.append_nil, List.cons_append,
      List.nil_append, List.mem_cons, List.mem_singleton, List.not_mem_nil, or_false] at hl
    rcases hl with rfl | rfl | rfl | rfl | rfl | rfl
    · exact noLineFeed_append _ _ p1 t2
    · exact noLineFeed_append _ _ p2 hn
    · exact noLineFeed_append _ _ p3 hc
    · exact noLineFeed_append _ _ p4 hb
    · exact noLineFeed_append _ _ p5 hr
    · exact p7
  | checking limit =>
    have hb := hv b (by simp [Account.numbers])
    have hr := hv limit (by simp [Account.numbers])
    intro line hl
    simp only [blockLines, Account.getAccountType, List.append_nil, List.cons_append,
      List.nil_append, List.mem_cons, List.mem_singleton, List.not_mem_nil, or_false] at hl
    rcases hl with rfl | rfl | rfl | rfl | rfl | rfl
    · exact noLineFeed_append _ _ p1 t3
    · exact noLineFeed_append _ _ p2 hn
    · exact noLineFeed_append _ _ p3 hc
    · exact noLineFeed_append _ _ p4 hb
    · exact noLineFeed_append _ _ p6 hr
    · exact p7

theorem fileLines_save (fmt : Money → String) (stod : String → Option Money) (head : Registry)
    (hs : ∀ acc ∈ head, Storable fmt stod acc) :
    fileLines (saveAccountsToFile fmt head) = head.flatMap (blockLines fmt) := by
  have hlines : ∀ line ∈ head.flatMap (blockLines fmt), NoLineFeed line := by
    intro line hl
    obtain ⟨acc, hacc, hmem⟩ := List.mem_flatMap.1 hl
    obtain ⟨hn, hc, hv⟩ := hs acc hacc
    exact blockLines_noLineFeed fmt acc hn hc (fun v hv' => (hv v hv').1) line hmem
  have h := fileLines_unlines (head.flatMap (blockLines fmt)) "" hlines
  rw [saveAccountsToFile_eq_unlines]
  have he : unlines (head.flatMap (blockLines fmt)) ++ "" =
      unlines (head.flatMap (blockLines fmt)) := by
    apply String.ext
    simp [String.data_append]
  rw [he] at h
  rw [h]
  simp [fileLines, splitLines]

theorem load_blocks_then (fmt : Money → String) (stod : String → Option Money)
    (balance0 rate0 limit0 : Money) (recs : List Account) (rest : List String)
    (hu : UniqueKeys recs) (hs : ∀ acc ∈ recs, Storable fmt stod acc) :
    ∃ vars', loadAccountsFromFile stod balance0 rate0 limit0 []
        (some (recs.flatMap (blockLines fmt) ++ rest)) =
      loadLoop stod rest.length vars' recs rest := by
  have hnum : ∀ acc ∈ recs, ∀ v ∈ acc.numbers, stod (fmt v) = some v :=
    fun acc ha v hv => ((hs acc ha).2.2 v hv).2
  obtain ⟨vars', h⟩ := loadLoop_blocks fmt stod recs hnum
    (recs.flatMap (blockLines fmt) ++ rest).length
    { type := "", number := "", name := "", balance := balance0, rate := rate0,
      limit := limit0 } [] rest
  refine ⟨vars', ?_⟩
  unfold loadAccountsFromFile
  simp only
  rw [loadLoop_fuel_irrelevant stod _
    ((recs.flatMap (blockLines fmt) ++ rest).length + recs.length) _ _ _ (le_refl _)
    (Nat.le_add_right _ _), h, foldl_addAccount_unique recs [] (by simpa using hu)]
  simp only [List.nil_append]
  exact loadLoop_fuel_irrelevant stod _ _ _ _ _ (by simp) (le_refl _)

theorem addAccount_prefix (head : Registry) (newAccount : Account) :
    ∃ l, (addAccount head newAccount).2 = head ++ l := by
  unfold addAccount
  cases searchByAccountNumber head newAccount.getAccountNumber with
  | none => exact ⟨[newAccount], linkAtTail_eq head newAccount⟩
  | some acc => exact ⟨[], by simp⟩

theorem loadLoop_prefix (stod : String → Option Money) (fuel : Nat) :
    ∀ (vars : LoadVars) (head : Registry) (inFile : List String),
      ∃ l, (loadLoop stod fuel vars head inFile).head = head ++ l := by
  have step : ∀ (head : Registry) (r : Account) (o : LoadOutcome),
      (∃ l, o.head = (addAccount head r).2 ++ l) → ∃ l, o.head = head ++ l := by
    rintro head r o ⟨l, hl⟩
    obtain ⟨l', hl'⟩ := addAccount_prefix head r
    exact ⟨l' ++ l, by rw [hl, hl', List.append_assoc]⟩
  induction fuel with
  | zero => intro vars head inFile; exact ⟨[], by simp [loadLoop, LoadOutcome.head]⟩
  | succ fuel ih =>
    intro vars head inFile
    cases inFile with
    | nil => exact ⟨[], by simp [loadLoop, LoadOutcome.head]⟩
    | cons line inFile =>
      simp only [loadLoop]
      split
      · split
        · exact ⟨[], by simp [LoadOutcome.head]⟩
        · split
          · exact step _ _ _ (ih _ _ _)
          · split
            · split
              · exact ⟨[], by simp [LoadOutcome.head]⟩
              · exact step _ _ _ (ih _ _ _)
            · split
              · split
                · exact ⟨[], by simp [LoadOutcome.head]⟩
                · exact step _ _ _ (ih _ _ _)
              · exact ih _ _ _
      · exact ⟨[], by simp [LoadOutcome.head]⟩

/-! ## Persistence claims -/

/-- The round trip of the values the text can carry: for every key-unique
registry whose account numbers and customer names hold no line feed and whose
numeric fields are printed, without line feed, in a form `stod` reads back as
the same value, loading the text written by `saveAccountsToFile` into an empty
registry ends normally with identical records in identical order. -/
theorem save_load_roundtrip (fmt : Money → String) (stod : String → Option Money)
    (balance0 rate0 limit0 : Money) (head : Registry) (hu : UniqueKeys head)
    (hs : ∀ acc ∈ head, Storable fmt stod acc) :
    loadAccountsFromFile stod balance0 rate0 limit0 []
      (some (fileLines (saveAccountsToFile fmt head))) = .finished head := by
  obtain ⟨vars', h⟩ := load_blocks_then fmt stod balance0 rate0 limit0 head [] hu hs
  rw [fileLines_save fmt stod head hs]
  rw [List.append_nil] at h
  rw [h]
  exact loadLoop_nil stod _ _ _

/-- An instance of the round trip: one Basic record, one Savings record with
rate 3 and one Checking record with overdraft 200, in that order, with small
whole balances, come back identical and in the same order. -/
theorem save_load_roundtrip_small :
    loadAccountsFromFile stodDigits 0 0 0 []
      (some (fileLines (saveAccountsToFile fmtDigits
        [mkAccount "1001" "Jane Doe" 100, mkSavingsAccount "1002" "John Roe" 50 3,
          mkCheckingAccount "1003" "Ann Lee" 75 200]))) =
      .finished [mkAccount "1001" "Jane Doe" 100, mkSavingsAccount "1002" "John Roe" 50 3,
        mkCheckingAccount "1003" "Ann Lee" 75 200] :=
  save_load_roundtrip fmtDigits stodDigits 0 0 0 _ (by decide) (by
    intro acc hacc
    simp only [List.mem_cons, List.mem_singleton, List.not_mem_nil, or_false] at hacc
    rcases hacc with rfl | rfl | rfl <;>
      exact ⟨by decide, by decide, by decide⟩)

/-- C11 fails on the code: `saveAccountsToFile` never sets the precision of the
stream, so a balance is written with six significant digits. The stream
insertion prints the balance 1234567 as "1.23457e+06", and `stod` reads that
text as 1234570; then the registry holding the single Basic record numbered
"1001" with balance 1234567 is saved as the five lines below, and loading them
into an empty registry ends normally with a record whose balance is 1234570,
not the record that was saved. -/
theorem save_load_loses_digits (fmt : Money → String) (stod : String → Option Money)
    (balance0 rate0 limit0 : Money) (hfmt : fmt 1234567 = "1.23457e+06")
    (hstod : stod "1.23457e+06" = some 1234570) :
    fileLines (saveAccountsToFile fmt [mkAccount "1001" "Jane Doe" 1234567]) =
      ["TYPE:Basic Account", "NUMBER:1001", "NAME:Jane Doe", "BALANCE:1.23457e+06",
        "----------"] ∧
    loadAccountsFromFile stod balance0 rate0 limit0 []
        (some (fileLines (saveAccountsToFile fmt [mkAccount "1001" "Jane Doe" 1234567]))) =
      .finished [mkAccount "1001" "Jane Doe" 1234570] ∧
    mkAccount "1001" "Jane Doe" 1234570 ≠ mkAccount "1001" "Jane Doe" 1234567 := by
  have hsame : saveAccountsToFile fmt [mkAccount "1001" "Jane Doe" 1234567] =
      saveAccountsToFile (fun _ => "1.23457e+06") [mkAccount "1001" "Jane Doe" 1234570] := by
    simp only [saveAccountsToFile, writeAccount, mkAccount, Account.getBalance,
      Account.getAccountType, Account.getAccountNumber, Account.getCustomerName, hfmt]
  refine ⟨?_, ?_, by decide⟩
  · rw [hsame]
    decide
  · rw [hsame]
    refine save_load_roundtrip (fun _ => "1.23457e+06") stod balance0 rate0 limit0 _
      (by decide) ?_
    intro acc hacc
    rw [List.mem_singleton] at hacc
    subst hacc
    refine ⟨by decide, by decide, ?_⟩
    intro v hv
    simp only [Account.numbers, mkAccount, List.mem_singleton] at hv
    subst hv
    exact ⟨by decide, hstod⟩

/-- C11, the failing input with the stand-ins for the library: the stand-in
for the stream insertion prints 1234567 as "1.23457e+06", the stand-in for
`stod` reads that text as 1234570, and the saved record comes back with the
balance 1234570. -/
theorem save_load_loses_digits_witness :
    fmtDigits 1234567 = "1.23457e+06" ∧ stodDigits "1.23457e+06" = some 1234570 ∧
    loadAccountsFromFile stodDigits 0 0 0 []
        (some (fileLines (saveAccountsToFile fmtDigits
          [mkAccount "1001" "Jane Doe" 1234567]))) =
      .finished [mkAccount "1001" "Jane Doe" 1234570] :=
  ⟨by decide, by decide,
    (save_load_loses_digits fmtDigits stodDigits 0 0 0 (by decide) (by decide)).2.1⟩

/-- C12: `saveAccountsToFile` writes nothing for the empty list and otherwise
the blocks of the records one after the other in list order, with no header
before them. A block is the lines `TYPE:<tag>`, `NUMBER:<accountNumber>`,
`NAME:<customerName>`, `BALANCE:<balance>`, then an `INTEREST_RATE:` line for
a Savings record and only for it, an `OVERDRAFT_LIMIT:` line for a Checking
record and only for it, then the marker line, each ended by a line feed. The
tag is "Basic Account", "Savings Account" or "Checking Account" by variant,
and the three tags differ. -/
theorem saveAccountsToFile_format (fmt : Money → String) :
    saveAccountsToFile fmt [] = "" ∧
    (∀ (acc : Account) (rest : Registry),
      saveAccountsToFile fmt (acc :: rest) = writeAccount fmt acc ++ saveAccountsToFile fmt rest) ∧
    (∀ head : Registry,
      saveAccountsToFile fmt head = unlines (head.flatMap (blockLines fmt))) ∧
    (∀ (n c : String) (b : Money), writeAccount fmt (mkAccount n c b) =
      unlines ["TYPE:Basic Account", "NUMBER:" ++ n, "NAME:" ++ c, "BALANCE:" ++ fmt b,
        "----------"]) ∧
    (∀ (n c : String) (b rate : Money), writeAccount fmt (mkSavingsAccount n c b rate) =
      unlines ["TYPE:Savings Account", "NUMBER:" ++ n, "NAME:" ++ c, "BALANCE:" ++ fmt b,
        "INTEREST_RATE:" ++ fmt rate, "----------"]) ∧
    (∀ (n c : String) (b limit : Money), writeAccount fmt (mkCheckingAccount n c b limit) =
      unlines ["TYPE:Checking Account", "NUMBER:" ++ n, "NAME:" ++ c, "BALANCE:" ++ fmt b,
        "OVERDRAFT_LIMIT:" ++ fmt limit, "----------"]) ∧
    (∀ acc : Account, acc.getAccountType =
      match acc.variant with
      | .basic => "Basic Account"
      | .savings _ => "Savings Account"
      | .checking _ => "Checking Account") ∧
    "Basic Account" ≠ "Savings Account" ∧ "Basic Account" ≠ "Checking Account" ∧
    "Savings Account" ≠ "Checking Account" := by
  have t1 : "TYPE:Basic Account" = "TYPE:" ++ "Basic Account" := by decide
  have t2 : "TYPE:Savings Account" = "TYPE:" ++ "Savings Account" := by decide
  have t3 : "TYPE:Checking Account" = "TYPE:" ++ "Checking Account" := by decide
  refine ⟨rfl, fun _ _ => rfl, saveAccountsToFile_eq_unlines fmt, ?_, ?_, ?_, fun _ => rfl,
    by decide, by decide, by decide⟩
  · intro n c b
    rw [writeAccount_eq_unlines, t1]
    rfl
  · intro n c b rate
    rw [writeAccount_eq_unlines, t2]
    rfl
  · intro n c b limit
    rw [writeAccount_eq_unlines, t3]
    rfl

/-- C17 fails on the code: in the file below the second block has no line
with the `NAME:`, `BALANCE:` or `INTEREST_RATE:` prefix, and the record decoded
from it carries the name, balance and rate of the first block. -/
theorem load_keeps_previous_block_values (balance0 rate0 limit0 : Money) :
    loadAccountsFromFile stodDigits balance0 rate0 limit0 []
      (some ["TYPE:Savings Account", "NUMBER:1001", "NAME:Ann", "BALANCE:100",
        "INTEREST_RATE:3", "----------",
        "TYPE:Savings Account", "NUMBER:1002", "Bob", "7", "9", "----------"]) =
      .finished [mkSavingsAccount "1001" "Ann" 100 3, mkSavingsAccount "1002" "Ann" 100 3] := by
  rfl

/-- C18 fails on the code: the field reads of `loadAccountsFromFile` have no
else branch. The second block below has the line "Bob" where the `NAME:` line
is due; the decode is not aborted: a record is added from that block, with the
name of the block before it, and a record is added from the block after it. -/
theorem load_continues_after_bad_field_line :
    loadAccountsFromFile stodDigits 0 0 0 []
      (some ["TYPE:Basic Account", "NUMBER:1001", "NAME:Ann", "BALANCE:100", "----------",
        "TYPE:Basic Account", "NUMBER:1002", "Bob", "BALANCE:7", "----------",
        "TYPE:Basic Account", "NUMBER:1003", "NAME:Cy", "BALANCE:9", "----------"]) =
      .finished [mkAccount "1001" "Ann" 100, mkAccount "1002" "Ann" 7,
        mkAccount "1003" "Cy" 9] := by
  rfl

/-- The one line that ends the decode: a line without the `TYPE:` prefix where
a block should begin. For a file made of the blocks of key-unique storable
records, then such a line, then anything, `loadAccountsFromFile` ends normally,
adds no record from that line on, and the registry holds exactly the records
of the earlier blocks, in order. -/
theorem load_stops_at_bad_type_line (fmt : Money → String) (stod : String → Option Money)
    (balance0 rate0 limit0 : Money) (recs : List Account) (bad : String)
    (post : List String) (hu : UniqueKeys recs) (hs : ∀ acc ∈ recs, Storable fmt stod acc)
    (hbad : substr bad 0 5 ≠ "TYPE:") :
    loadAccountsFromFile stod balance0 rate0 limit0 []
      (some (fileLines (saveAccountsToFile fmt recs) ++ bad :: post)) = .finished recs := by
  obtain ⟨vars', h⟩ := load_blocks_then fmt stod balance0 rate0 limit0 recs (bad :: post) hu hs
  rw [fileLines_save fmt stod recs hs, h]
  simp only [List.length_cons, loadLoop, hbad, if_false]

/-- An instance: after one well-formed block the line "NUMBER:1002" stands
where a block should begin; the record of the first block is kept and the
well-formed block further down is not decoded. -/
theorem load_stops_at_bad_type_line_small :
    loadAccountsFromFile stodDigits 0 0 0 []
      (some (fileLines (saveAccountsToFile fmtDigits [mkAccount "1001" "Ann" 100]) ++
        "NUMBER:1002" :: ["NAME:Bob", "BALANCE:7", "----------",
          "TYPE:Basic Account", "NUMBER:1003", "NAME:Cy", "BALANCE:9", "----------"])) =
      .finished [mkAccount "1001" "Ann" 100] :=
  load_stops_at_bad_type_line fmtDigits stodDigits 0 0 0 [mkAccount "1001" "Ann" 100]
    "NUMBER:1002" _ (by decide) (by
      intro acc hacc
      rw [List.mem_singleton] at hacc
      subst hacc
      exact ⟨by decide, by decide, by decide⟩) (by decide)

/-! ## Balances under NaN, infinities and rounding -/

theorem Double.scaled_nonneg (negative : Bool) (mantissa : Nat) (exponent base : Int)
    (h : negative = false ∨ mantissa = 0) :
    0 ≤ Double.scaled negative mantissa exponent base := by
  rcases h with rfl | rfl
  · simp only [Double.scaled, Bool.false_eq_true, if_false]
    exact Int.ofNat_nonneg _
  · cases negative <;> simp [Double.scaled]

theorem Double.scaled_not (negative : Bool) (mantissa : Nat) (exponent base : Int) :
    Double.scaled (!negative) mantissa exponent base =
      -Double.scaled negative mantissa exponent base := by
  cases negative <;> simp [Double.scaled]

theorem Double.scaled_nonneg_iff (negative : Bool) (mantissa : Nat) (exponent base : Int) :
    0 ≤ Double.scaled negative mantissa exponent base ↔ negative = false ∨ mantissa = 0 := by
  refine ⟨?_, Double.scaled_nonneg negative mantissa exponent base⟩
  intro h
  cases negative with
  | false => exact Or.inl rfl
  | true =>
    right
    simp only [Double.scaled, if_true] at h
    have hp : 0 < 2 ^ (exponent - base).toNat := by positivity
    have h0 : mantissa * 2 ^ (exponent - base).toNat = 0 := by omega
    rcases Nat.mul_eq_zero.1 h0 with h1 | h1
    · exact h1
    · omega

theorem Double.zero_le_fin (negative : Bool) (mantissa : Nat) (exponent : Int) :
    (0 : Double) ≤ Double.fin negative mantissa exponent ↔ negative = false ∨ mantissa = 0 := by
  rw [← Double.scaled_nonneg_iff negative mantissa exponent (min 0 exponent)]
  show Double.le (Double.fin false 0 0) (Double.fin negative mantissa exponent) = true ↔ _
  simp only [Double.le, Double.scaled_zero, decide_eq_true_eq]

theorem Double.zero_le_normalize (mantissa : Nat) (exponent : Int) :
    (0 : Double) ≤ Double.normalize false mantissa exponent := by
  unfold Double.normalize
  split
  · decide
  · exact (Double.zero_le_fin _ _ _).2 (Or.inl rfl)

theorem Double.zero_le_round (a : Nat) (sticky : Bool) (e : Int) :
    (0 : Double) ≤ Double.round false a sticky e := by
  have hinf : (0 : Double) ≤ Double.inf false := by decide
  have hzero : (0 : Double) ≤ Double.fin false 0 0 := by decide
  unfold Double.round
  simp only
  split_ifs
  all_goals first
    | exact hinf
    | exact hzero
    | exact Double.zero_le_normalize _ _

theorem Double.add_fin_nonneg (n1 : Bool) (m1 : Nat) (e1 : Int) (n2 : Bool) (m2 : Nat)
    (e2 : Int)
    (h : 0 ≤ Double.scaled n1 m1 e1 (min e1 e2) + Double.scaled n2 m2 e2 (min e1 e2)) :
    (0 : Double) ≤ Double.add (Double.fin n1 m1 e1) (Double.fin n2 m2 e2) := by
  simp only [Double.add]
  split
  · exact (Double.zero_le_fin _ _ _).2 (Or.inr rfl)
  · rename_i hne
    have hlt : ¬ Double.scaled n1 m1 e1 (min e1 e2) + Double.scaled n2 m2 e2 (min e1 e2) < 0 := by
      omega
    simp only [hlt, decide_False]
    exact Double.zero_le_round _ _ _

/-- The sum of two doubles that are NaN or not negative is NaN or not
negative. -/
theorem Double.add_nonneg_or_nan (a b : Double) (ha : a = Double.nan ∨ 0 ≤ a)
    (hb : b = Double.nan ∨ 0 ≤ b) : a + b = Double.nan ∨ 0 ≤ a + b := by
  have hinf : (0 : Double) ≤ Double.inf false := by decide
  show Double.add a b = Double.nan ∨ 0 ≤ Double.add a b
  cases a with
  | nan => exact Or.inl (by simp [Double.add])
  | inf n1 =>
    have h1 : n1 = false := by
      rcases ha with ha | ha
      · exact absurd ha (by simp)
      · cases n1
        · rfl
        · exact absurd ha (by decide)
    subst h1
    cases b with
    | nan => exact Or.inl rfl
    | inf n2 =>
      cases n2
      · exact Or.inr hinf
      · exact Or.inl rfl
    | fin n2 m2 e2 => exact Or.inr hinf
  | fin n1 m1 e1 =>
    have h1 : n1 = false ∨ m1 = 0 := by
      rcases ha with ha | ha
      · exact absurd ha (by simp)
      · exact (Double.zero_le_fin _ _ _).1 ha
    cases b with
    | nan => exact Or.inl rfl
    | inf n2 =>
      have h2 : n2 = false := by
        rcases hb with hb | hb
        · exact absurd hb (by simp)
        · cases n2
          · rfl
          · exact absurd hb (by decide)
      subst h2
      exact Or.inr hinf
    | fin n2 m2 e2 =>
      have h2 : n2 = false ∨ m2 = 0 := by
        rcases hb with hb | hb
        · exact absurd hb (by simp)
        · exact (Double.zero_le_fin _ _ _).1 hb
      right
      apply Double.add_fin_nonneg
      have p1 := Double.scaled_nonneg n1 m1 e1 (min e1 e2) h1
      have p2 := Double.scaled_nonneg n2 m2 e2 (min e1 e2) h2
      omega

/-- The difference `b - a` of two doubles with `a <= b` is NaN or not
negative. -/
theorem Double.sub_nonneg_or_nan (a b : Double) (h : a ≤ b) :
    b - a = Double.nan ∨ 0 ≤ b - a := by
  have hinf : (0 : Double) ≤ Double.inf false := by decide
  show Double.add b (Double.neg a) = Double.nan ∨ 0 ≤ Double.add b (Double.neg a)
  have hle : Double.le a b = true := h
  cases a with
  | nan => simp [Double.le] at hle
  | inf n1 =>
    cases b with
    | nan => simp [Double.le] at hle
    | inf n2 =>
      cases n1
      · cases n2
        · exact Or.inl rfl
        · simp [Double.le] at hle
      · cases n2
        · exact Or.inr hinf
        · exact Or.inl rfl
    | fin n2 m2 e2 =>
      cases n1
      · simp [Double.le] at hle
      · exact Or.inr hinf
  | fin n1 m1 e1 =>
    cases b with
    | nan => simp [Double.le] at hle
    | inf n2 =>
      cases n2
      · exact Or.inr hinf
      · simp [Double.le] at hle
    | fin n2 m2 e2 =>
      right
      simp only [Double.neg]
      apply Double.add_fin_nonneg
      simp only [Double.le, decide_eq_true_eq] at hle
      rw [Double.scaled_not, min_comm]
      omega

theorem Double.nonneg_or_nan_of_not_le_zero (a : Double) (h : ¬ a ≤ 0) :
    a = Double.nan ∨ 0 ≤ a := by
  cases a with
  | nan => exact Or.inl rfl
  | inf negative =>
    cases negative
    · exact Or.inr (by decide)
    · exact absurd (show Double.inf true ≤ 0 by decide) h
  | fin negative mantissa exponent =>
    right
    rw [Double.zero_le_fin, ← Double.scaled_nonneg_iff negative mantissa exponent
      (min exponent 0)]
    have h2 : ¬ Double.scaled negative mantissa exponent (min exponent 0) ≤
        Double.scaled false 0 0 (min exponent 0) := by
      intro hle
      apply h
      show Double.le (Double.fin negative mantissa exponent) (Double.fin false 0 0) = true
      simpa [Double.le] using hle
    rw [Double.scaled_zero] at h2
    omega

theorem Double.nonneg_or_nan_of_not_lt_zero (a : Double) (h : ¬ a < 0) :
    a = Double.nan ∨ 0 ≤ a := by
  cases a with
  | nan => exact Or.inl rfl
  | inf negative =>
    cases negative
    · exact Or.inr (by decide)
    · exact absurd (show Double.inf true < 0 by decide) h
  | fin negative mantissa exponent =>
    right
    rw [Double.zero_le_fin, ← Double.scaled_nonneg_iff negative mantissa exponent
      (min exponent 0)]
    have h2 : ¬ Double.scaled negative mantissa exponent (min exponent 0) <
        Double.scaled false 0 0 (min exponent 0) := by
      intro hlt
      apply h
      show Double.lt (Double.fin negative mantissa exponent) (Double.fin false 0 0) = true
      simpa [Double.lt] using hlt
    rw [Double.scaled_zero] at h2
    omega

theorem setBalanceOfFound_forall (P : Account → Prop) (head : Registry) (accNum : String)
    (v : Money) (acc : Account) (hs : searchByAccountNumber head accNum = some acc)
    (hall : ∀ r ∈ head, P r) (hnew : P { acc with balance := v }) :
    ∀ r ∈ setBalanceOfFound head accNum v, P r := by
  obtain ⟨pre, post, rfl, hpre, hacc⟩ := (search_eq_some_iff head accNum acc).1 hs
  rw [setBalanceOfFound_split pre post acc accNum v hpre hacc]
  intro r hr
  rcases List.mem_append.1 hr with h | h
  · exact hall r (by simp [h])
  · rcases List.mem_cons.1 h with rfl | h
    · exact hnew
    · exact hall r (by simp [h])

theorem createAccount_balance (type : Int) (accNum custName : String)
    (balance extra : Money) (acc : Account)
    (h : createAccount type accNum custName balance extra = some acc) :
    acc.balance = Double.nan ∨ 0 ≤ acc.balance := by
  unfold createAccount at h
  split at h
  · exact absurd h (by simp)
  · rename_i hvalid
    have hb : balance = Double.nan ∨ 0 ≤ balance := by
      simp only [Bool.or_eq_true, decide_eq_true_eq, not_or] at hvalid
      exact Double.nonneg_or_nan_of_not_lt_zero balance hvalid.2
    split at h
    · simp only [Option.some.injEq] at h
      subst h
      exact hb
    · split at h
      · simp only [Option.some.injEq] at h
        subst h
        exact hb
      · split at h
        · simp only [Option.some.injEq] at h
          subst h
          exact hb
        · exact absurd h (by simp)

theorem balance_nonneg_or_nan_apply (head : Registry) (op : SessionOp)
    (h : ∀ r ∈ head, (r.variant = .basic ∨ ∃ rate, r.variant = .savings rate) →
      r.balance = Double.nan ∨ 0 ≤ r.balance) :
    ∀ r ∈ op.apply head, (r.variant = .basic ∨ ∃ rate, r.variant = .savings rate) →
      r.balance = Double.nan ∨ 0 ≤ r.balance := by
  cases op with
  | createAndAdd type accNum custName balance extra =>
    simp only [SessionOp.apply, createAccountOn]
    cases hc : createAccount type accNum custName balance extra with
    | none => exact h
    | some acc =>
      obtain ⟨l, hl⟩ : ∃ l, (addAccount head acc).2 = head ++ l ∧ ∀ r ∈ l, r = acc := by
        unfold addAccount
        cases searchByAccountNumber head acc.getAccountNumber with
        | none => exact ⟨[acc], linkAtTail_eq head acc, by simp⟩
        | some _ => exact ⟨[], by simp, by simp⟩
      simp only [hl.1]
      intro r hr _
      rcases List.mem_append.1 hr with hr | hr
      · exact h r hr (by assumption)
      · rw [hl.2 r hr]
        exact createAccount_balance _ _ _ _ _ _ hc
  | deposit accNum amount =>
    simp only [SessionOp.apply, Bank.deposit]
    split
    · exact h
    · rename_i hpos
      cases hs : searchByAccountNumber head accNum with
      | none => exact h
      | some acc =>
        refine setBalanceOfFound_forall _ head accNum _ acc hs h ?_
        intro hv
        have hacc := h acc (search_mem head accNum acc hs).1 hv
        exact Double.add_nonneg_or_nan _ _ hacc
          (Double.nonneg_or_nan_of_not_le_zero amount hpos)
  | withdraw accNum amount =>
    simp only [SessionOp.apply, Bank.withdraw]
    split
    · exact h
    · cases hs : searchByAccountNumber head accNum with
      | none => exact h
      | some acc =>
        by_cases hc : acc.canWithdraw amount = true
        · simp only [hc, Bool.not_true, Bool.false_eq_true, if_false]
          refine setBalanceOfFound_forall _ head accNum _ acc hs h ?_
          intro hv
          have hle := canWithdraw_le acc amount hc
          have hav : acc.getAvailableBalance = acc.balance := by
            rcases hv with hv | ⟨rate, hv⟩
            · simp only at hv
              simp [Account.getAvailableBalance, hv]
            · simp only at hv
              simp [Account.getAvailableBalance, hv]
          rw [hav] at hle
          exact Double.sub_nonneg_or_nan amount acc.balance hle
        · simp only [Bool.not_eq_true] at hc
          simp only [hc, Bool.not_false, if_true]
          exact h
  | deleteAccount accNum =>
    simp only [SessionOp.apply]
    rw [deleteAccount_eq_unlinkAfter]
    intro r hr
    exact h r ((unlinkAfter_sublist head accNum).subset hr)

/-- What the operations do keep: starting from the empty list, after any
sequence of `createAccount` followed by `addAccount`, `deposit`, `withdraw` and
`deleteAccount` calls, the balance of every Basic and of every Savings record
is NaN or not negative; it is never a negative number. -/
theorem basic_savings_balance_nonneg_or_nan (ops : List SessionOp) :
    ∀ r ∈ runSession [] ops, (r.variant = .basic ∨ ∃ rate, r.variant = .savings rate) →
      r.balance = Double.nan ∨ 0 ≤ r.balance := by
  have key : ∀ (ops : List SessionOp) (head : Registry),
      (∀ r ∈ head, (r.variant = .basic ∨ ∃ rate, r.variant = .savings rate) →
        r.balance = Double.nan ∨ 0 ≤ r.balance) →
      ∀ r ∈ runSession head ops, (r.variant = .basic ∨ ∃ rate, r.variant = .savings rate) →
        r.balance = Double.nan ∨ 0 ≤ r.balance := by
    intro ops
    induction ops with
    | nil => intro head h; exact h
    | cons op ops ih =>
      intro head h
      exact ih _ (balance_nonneg_or_nan_apply head op h)
  exact key ops [] (by simp)

theorem setBalanceOfFound_fixedPart (head : Registry) (accNum : String) (v : Money) :
    (setBalanceOfFound head accNum v).map Account.fixedPart = head.map Account.fixedPart := by
  induction head with
  | nil => rfl
  | cons current next ih =>
    by_cases h : current.getAccountNumber = accNum
    · simp [setBalanceOfFound, h, Account.setBalance, Account.fixedPart]
    · simp [setBalanceOfFound, h, ih]

/-- C15: records change in their balance only. `deposit` and `withdraw` keep,
position by position, the variant with its extra field, the account number
and the customer name of every record, and when they succeed they replace the
balance of the first record numbered `accNum` and leave every other record
and the order as they were; `addAccount` keeps the old records as they were,
in order, in front of what it adds; `deleteAccount` leaves a sublist of the
old records, each as it was. -/
theorem records_change_in_balance_only (head : Registry) (accNum : String) (amount : Money)
    (newAccount : Account) :
    ((deposit head accNum amount).2.map Account.fixedPart = head.map Account.fixedPart ∧
      ((deposit head accNum amount).1 = true →
        ∃ pre acc post, head = pre ++ acc :: post ∧ (∀ r ∈ pre, r.accountNumber ≠ accNum) ∧
          acc.accountNumber = accNum ∧
          (deposit head accNum amount).2 =
            pre ++ { acc with balance := acc.balance + amount } :: post)) ∧
    ((withdraw head accNum amount).2.map Account.fixedPart = head.map Account.fixedPart ∧
      ((withdraw head accNum amount).1 = true →
        ∃ pre acc post, head = pre ++ acc :: post ∧ (∀ r ∈ pre, r.accountNumber ≠ accNum) ∧
          acc.accountNumber = accNum ∧
          (withdraw head accNum amount).2 =
            pre ++ { acc with balance := acc.balance - amount } :: post)) ∧
    ((addAccount head newAccount).2 = head ∨
      (addAccount head newAccount).2 = head ++ [newAccount]) ∧
    (deleteAccount head accNum).2.Sublist head := by
  refine ⟨⟨?_, ?_⟩, ⟨?_, ?_⟩, ?_, ?_⟩
  · unfold deposit
    split
    · rfl
    · split
      · rfl
      · exact setBalanceOfFound_fixedPart _ _ _
  · unfold deposit
    split
    · intro h; exact absurd h (by simp)
    · cases hs : searchByAccountNumber head accNum with
      | none => intro h; exact absurd h (by simp)
      | some acc =>
        intro _
        obtain ⟨pre, post, rfl, hpre, hacc⟩ := (search_eq_some_iff head accNum acc).1 hs
        exact ⟨pre, acc, post, rfl, hpre, hacc,
          setBalanceOfFound_split pre post acc accNum _ hpre hacc⟩
  · unfold withdraw
    split
    · rfl
    · split
      · rfl
      · split
        · rfl
        · exact setBalanceOfFound_fixedPart _ _ _
  · unfold withdraw
    split
    · intro h; exact absurd h (by simp)
    · cases hs : searchByAccountNumber head accNum with
      | none => intro h; exact absurd h (by simp)
      | some acc =>
        simp only
        split
        · intro h; exact absurd h (by simp)
        · intro _
          obtain ⟨pre, post, rfl, hpre, hacc⟩ := (search_eq_some_iff head accNum acc).1 hs
          exact ⟨pre, acc, post, rfl, hpre, hacc,
            setBalanceOfFound_split pre post acc accNum _ hpre hacc⟩
  · unfold addAccount
    cases searchByAccountNumber head newAccount.getAccountNumber with
    | none => exact Or.inr (linkAtTail_eq head newAccount)
    | some _ => exact Or.inl rfl
  · rw [deleteAccount_eq_unlinkAfter]
    exact unlinkAfter_sublist head accNum

/-- C16: `createAccount` returns a detached record. Whatever the arguments,
and whether a record is returned or not, the list after the call is the list
before it; so a number that was absent is still absent after
`createAccount`, and it is found, with the created record, once `addAccount`
has been called with that record. -/
theorem createAccount_detached (head : Registry) (type : Int) (accNum custName : String)
    (balance extra : Money) :
    (createAccountOn head type accNum custName balance extra).2 = head ∧
    (createAccountOn head type accNum custName balance extra).1 =
      createAccount type accNum custName balance extra ∧
    (searchByAccountNumber head accNum = none →
      searchByAccountNumber (createAccountOn head type accNum custName balance extra).2
        accNum = none) ∧
    (∀ acc, (createAccountOn head type accNum custName balance extra).1 = some acc →
      searchByAccountNumber head accNum = none →
      searchByAccountNumber
        (addAccount (createAccountOn head type accNum custName balance extra).2 acc).2 accNum =
          some acc) := by
  refine ⟨rfl, rfl, fun h => h, ?_⟩
  intro acc hacc hnone
  have hcreated : createAccount type accNum custName balance extra = some acc := hacc
  have hnum : acc.accountNumber = accNum := by
    unfold createAccount at hcreated
    split at hcreated
    · exact absurd hcreated (by simp)
    · split at hcreated
      · simp only [Option.some.injEq] at hcreated
        subst hcreated
        rfl
      · split at hcreated
        · simp only [Option.some.injEq] at hcreated
          subst hcreated
          rfl
        · split at hcreated
          · simp only [Option.some.injEq] at hcreated
            subst hcreated
            rfl
          · exact absurd hcreated (by simp)
  have hadd : (addAccount head acc).2 = head ++ [acc] := by
    unfold addAccount
    have : searchByAccountNumber head acc.getAccountNumber = none := by
      simp only [Account.getAccountNumber, hnum, hnone]
    rw [this]
    exact linkAtTail_eq head acc
  show searchByAccountNumber (addAccount head acc).2 accNum = some acc
  rw [hadd]
  exact (search_eq_some_iff _ accNum acc).2
    ⟨head, [], rfl, (search_eq_none_iff head accNum).1 hnone, hnum⟩

end Bank

namespace Warehouse

/-! ## Stack and queue discipline -/

theorem Stack.stack_walk_eq {T : Type} (nodes out : List T) : Stack.walk nodes out = out ++ nodes := by
  induction nodes generalizing out with
  | nil => simp [Stack.walk]
  | cons data next ih => simp [Stack.walk, ih]

theorem Queue.queue_walk_eq {T : Type} (nodes out : List T) : Queue.walk nodes out = out ++ nodes := by
  induction nodes generalizing out with
  | nil => simp [Queue.walk]
  | cons data next ih => simp [Queue.walk, ih]

theorem Queue.linkAfterBack_eq {T : Type} (nodes : List T) (val : T) :
    Queue.linkAfterBack nodes val = nodes ++ [val] := by
  induction nodes with
  | nil => rfl
  | cons data next ih => simp [Queue.linkAfterBack, ih]

theorem Queue.push_nodes {T : Type} (q : Queue T) (val : T) :
    (q.push val).nodes = q.nodes ++ [val] := by
  obtain ⟨nodes⟩ := q
  cases nodes with
  | nil => rfl
  | cons data next => simp [Queue.push, Queue.linkAfterBack_eq]

theorem Queue.pushAll_nodes {T : Type} (vals : List T) :
    ∀ q : Queue T, (q.pushAll vals).nodes = q.nodes ++ vals := by
  induction vals with
  | nil => intro q; simp [Queue.pushAll]
  | cons v vs ih =>
    intro q
    have h := ih (q.push v)
    simp only [Queue.pushAll, List.foldl_cons] at h ⊢
    rw [h, Queue.push_nodes, List.append_assoc]
    rfl

theorem Queue.popN_nodes {T : Type} (n : Nat) :
    ∀ q : Queue T, (Queue.popN n q).nodes = q.nodes.drop n := by
  induction n with
  | zero => intro q; rfl
  | succ n ih =>
    intro q
    obtain ⟨nodes⟩ := q
    cases nodes with
    | nil => simp [Queue.popN, ih, Queue.pop]
    | cons data next => simp [Queue.popN, ih, Queue.pop]

/-- C19: `Stack<T>` is last in, first out. After `push(v)` the stack is not
empty, `top()` returns `v`, and a following `pop()` gives back exactly the
stack before the push. `toVector` appends to `out` the contents from the top
down, so after pushes onto an empty stack the most recently pushed value comes
first; it is a `const` member and the stack is not among its outputs. -/
theorem stack_lifo {T : Type} (s : Stack T) (v : T) :
    (s.push v).empty = false ∧ (s.push v).top = some v ∧ (s.push v).pop = s ∧
    (∀ out : List T, s.toVector out = out ++ s.nodes) ∧
    (∀ out : List T, (s.push v).toVector out = out ++ v :: s.nodes) ∧
    (∀ vals : List T, (vals.foldl Stack.push Stack.new).toVector [] = vals.reverse) := by
  refine ⟨rfl, rfl, rfl, fun out => Stack.stack_walk_eq _ _, fun out => Stack.stack_walk_eq _ _, ?_⟩
  intro vals
  have h : ∀ (vals : List T) (s : Stack T),
      (vals.foldl Stack.push s).nodes = vals.reverse ++ s.nodes := by
    intro vals
    induction vals with
    | nil => intro s; rfl
    | cons x xs ih =>
      intro s
      rw [List.foldl_cons, ih]
      simp [Stack.push]
  simp only [Stack.toVector, Stack.stack_walk_eq, h, Stack.new, List.append_nil, List.nil_append]

/-- C20: `Queue<T>` is first in, first out. After the values `vals` are
pushed onto an empty queue, `toVector` lists them in the order pushed,
`front()` returns the oldest value not yet popped, and `pop()` removes exactly
that value and keeps the others in order; after as many pops as there were
pushes the queue is empty, and a value pushed then is the front. -/
theorem queue_fifo {T : Type} (vals : List T) :
    (∀ out : List T, ((Queue.new : Queue T).pushAll vals).toVector out = out ++ vals) ∧
    (∀ n : Nat, (Queue.popN n ((Queue.new : Queue T).pushAll vals)).front = (vals.drop n).head?) ∧
    (∀ n : Nat, (Queue.popN n ((Queue.new : Queue T).pushAll vals)).toVector [] = vals.drop n) ∧
    (∀ n : Nat, (Queue.popN n ((Queue.new : Queue T).pushAll vals)).pop.toVector [] =
      vals.drop (n + 1)) ∧
    (Queue.popN vals.length ((Queue.new : Queue T).pushAll vals)).empty = true ∧
    (∀ v : T, ((Queue.popN vals.length ((Queue.new : Queue T).pushAll vals)).push v).front =
      some v) ∧
    (∀ (q : Queue T) (v : T), (q.push v).toVector [] = q.toVector [] ++ [v] ∧
      (q.push v).empty = false) := by
  have hn : ∀ n : Nat, (Queue.popN n ((Queue.new : Queue T).pushAll vals)).nodes =
      vals.drop n := by
    intro n
    rw [Queue.popN_nodes, Queue.pushAll_nodes]
    rfl
  have hfront : ∀ q : Queue T, q.front = q.nodes.head? := by
    rintro ⟨nodes⟩
    cases nodes <;> rfl
  have hpop : ∀ q : Queue T, q.pop.nodes = q.nodes.tail := by
    rintro ⟨nodes⟩
    cases nodes <;> rfl
  have hempty : ∀ q : Queue T, q.empty = q.nodes.isEmpty := by
    rintro ⟨nodes⟩
    cases nodes <;> rfl
  refine ⟨?_, ?_, ?_, ?_, ?_, ?_, ?_⟩
  · intro out
    simp only [Queue.toVector, Queue.queue_walk_eq, Queue.pushAll_nodes, Queue.new, List.nil_append]
  · intro n
    rw [hfront, hn]
  · intro n
    simp only [Queue.toVector, Queue.queue_walk_eq, hn, List.nil_append]
  · intro n
    simp only [Queue.toVector, Queue.queue_walk_eq, hpop, hn, List.nil_append, List.tail_drop]
  · rw [hempty, hn]
    simp
  · intro v
    rw [hfront, Queue.push_nodes, hn]
    simp
  · intro q v
    refine ⟨?_, ?_⟩
    · simp only [Queue.toVector, Queue.queue_walk_eq, Queue.push_nodes, List.nil_append]
    · rw [hempty, Queue.push_nodes]
      simp

end Warehouse

namespace Warehouse

/-! ## Extraction and reloading of the containers -/

theorem Stack.stack_drain_eq {T : Type} (nodes temp : List T) :
    Stack.drain nodes temp = (⟨[]⟩, temp ++ nodes) := by
  induction nodes generalizing temp with
  | nil => simp [Stack.drain]
  | cons data next ih => simp [Stack.drain, ih]

theorem Queue.queue_drain_eq {T : Type} (nodes out : List T) :
    Queue.drain nodes out = (⟨[]⟩, out ++ nodes) := by
  induction nodes generalizing out with
  | nil => simp [Queue.drain]
  | cons data next ih => simp [Queue.drain, ih]

theorem Stack.extractToVector_eq {T : Type} (s : Stack T) (out : List T) :
    s.extractToVector out = (⟨[]⟩, out ++ s.nodes.reverse) := by
  simp [Stack.extractToVector, Stack.stack_drain_eq]

theorem Stack.foldl_push_nodes {T : Type} (items : List T) :
    ∀ s : Stack T, (items.foldl Stack.push s).nodes = items.reverse ++ s.nodes := by
  induction items with
  | nil => intro s; rfl
  | cons x xs ih =>
    intro s
    rw [List.foldl_cons, ih]
    simp [Stack.push]

theorem Stack.stack_clear_eq {T : Type} (nodes : List T) : Stack.clear nodes = ⟨[]⟩ := by
  induction nodes with
  | nil => rfl
  | cons data next ih => simpa [Stack.clear] using ih

theorem Queue.queue_clear_eq {T : Type} (nodes : List T) : Queue.clear nodes = ⟨[]⟩ := by
  induction nodes with
  | nil => rfl
  | cons data next ih => simpa [Queue.clear] using ih

/-- C21: `Stack::extractToVector` appends the items of the stack to `out` from
the bottom to the top, the reverse of the order of `toVector`, and leaves the
stack empty; `Stack::loadFromVector` on an empty stack with the extracted
vector rebuilds the original stack, so its contents from the top down are
those of the original. -/
theorem stack_extract_then_load {T : Type} (s : Stack T) (out : List T) :
    (s.extractToVector out).2 = out ++ (s.toVector []).reverse ∧
    (s.extractToVector out).1.empty = true ∧
    (s.extractToVector out).1 = Stack.new ∧
    Stack.loadFromVector Stack.new (s.extractToVector []).2 = s ∧
    (Stack.loadFromVector Stack.new (s.extractToVector []).2).toVector [] = s.toVector [] := by
  have hload : Stack.loadFromVector Stack.new (s.extractToVector []).2 = s := by
    obtain ⟨nodes⟩ := s
    have h := Stack.foldl_push_nodes nodes.reverse (Stack.new : Stack T)
    simp only [List.reverse_reverse, Stack.new, List.append_nil] at h
    simp only [Stack.loadFromVector, Stack.extractToVector_eq, List.nil_append, Stack.new]
    cases hs : List.foldl Stack.push (⟨[]⟩ : Stack T) nodes.reverse with
    | mk nodes' =>
      rw [hs] at h
      simp only at h
      rw [h]
  refine ⟨?_, ?_, ?_, hload, by rw [hload]⟩
  · simp [Stack.extractToVector_eq, Stack.toVector, Stack.stack_walk_eq]
  · simp [Stack.extractToVector_eq, Stack.empty]
  · simp [Stack.extractToVector_eq, Stack.new]

end Warehouse

namespace Warehouse

/-! ## Reading back the text of the save functions -/

theorem takeLine_line (line rest : List Char) (h : '\n' ∉ line) :
    takeLine (line ++ '\n' :: rest) = (line, rest, false) := by
  induction line with
  | nil => simp [takeLine]
  | cons c cs ih =>
    have hc : c ≠ '\n' := fun hc => h (by simp [hc])
    have hcs : '\n' ∉ cs := fun hcs => h (by simp [hcs])
    simp [takeLine, hc, ih hcs]

theorem getline_line (line old : String) (rest : List Char) (h : Bank.NoLineFeed line) :
    getline { rest := line.data ++ '\n' :: rest, good := true } old =
      ({ rest := rest, good := true }, line) := by
  simp only [getline, if_true, takeLine_line line.data rest h, Bool.not_false]

theorem writeItemLines_data (item : Item) (items : List Item) :
    (writeItemLines (item :: items)).data =
      ("ITEM:" ++ item.name).data ++ '\n' :: (writeItemLines items).data := by
  simp [writeItemLines, Item.getName, String.data_append]

theorem readItems_written (items : List Item) (h : ∀ item ∈ items, Bank.NoLineFeed item.name) :
    ∀ (line : String) (acc : List Item) (rest : List Char),
      readItems items.length { rest := (writeItemLines items).data ++ rest, good := true }
        line acc = some (acc ++ items) := by
  induction items with
  | nil => intro line acc rest; simp [readItems]
  | cons item items ih =>
    intro line acc rest
    have hname : Bank.NoLineFeed ("ITEM:" ++ item.name) :=
      Bank.noLineFeed_append _ _ (by decide) (h item (by simp))
    have hp : Bank.substr ("ITEM:" ++ item.name) 0 5 = "ITEM:" :=
      Bank.substr_append_left "ITEM:" item.name
    have hv : Bank.substrFrom ("ITEM:" ++ item.name) 5 = item.name :=
      Bank.substrFrom_append_left "ITEM:" item.name
    have hrest := ih (fun it hit => h it (by simp [hit])) ("ITEM:" ++ item.name)
      (acc ++ [item]) rest
    simp only [List.length_cons, readItems, writeItemLines_data, List.append_assoc,
      List.cons_append, getline_line _ _ _ hname, hp, hv, if_true]
    rw [hrest]
    simp

theorem readItemFile_written (fmtSize : Nat → String) (stoi : String → Option Int)
    (items : List Item) (hnames : ∀ item ∈ items, Bank.NoLineFeed item.name)
    (hsize : Bank.NoLineFeed (fmtSize items.length))
    (hstoi : stoi (fmtSize items.length) = some (items.length : Int)) :
    readItemFile stoi (writeItems fmtSize items) = some items := by
  have hhead : Bank.NoLineFeed ("ITEM_COUNT:" ++ fmtSize items.length) :=
    Bank.noLineFeed_append _ _ (by decide) hsize
  have hp : Bank.substr ("ITEM_COUNT:" ++ fmtSize items.length) 0 11 = "ITEM_COUNT:" :=
    Bank.substr_append_left "ITEM_COUNT:" _
  have hv : Bank.substrFrom ("ITEM_COUNT:" ++ fmtSize items.length) 11 =
      fmtSize items.length := Bank.substrFrom_append_left "ITEM_COUNT:" _
  have hdata : (writeItems fmtSize items).data =
      ("ITEM_COUNT:" ++ fmtSize items.length).data ++ '\n' ::
        ((writeItemLines items).data ++ []) := by
    simp [writeItems, String.data_append]
  have hread := readItems_written items hnames ("ITEM_COUNT:" ++ fmtSize items.length) [] []
  simp only [readItemFile, hdata, getline_line _ _ _ hhead, hp, hv, if_true, hstoi,
    Int.toNat_ofNat]
  rw [hread]
  rfl

end Warehouse

namespace Warehouse

/-! ## Persistence of the inventory and of the shipping queue -/

/-- C23 fails on the code: for every inventory stack whose item names hold no
line feed (and whose size is printed, without line feed, as a text `stoi`
reads back), loading the text written by `saveInventory` yields the items of
the stack in the reverse order: the item on top after the reload is the one
that was at the bottom when saved. -/
theorem inventory_reload_reverses (fmtSize : Nat → String) (stoi : String → Option Int)
    (s prior : Stack Item) (hnames : ∀ item ∈ s.nodes, Bank.NoLineFeed item.name)
    (hsize : Bank.NoLineFeed (fmtSize s.nodes.length))
    (hstoi : stoi (fmtSize s.nodes.length) = some (s.nodes.length : Int)) :
    loadInventory stoi prior (some (saveInventory fmtSize s)) = ⟨s.nodes.reverse⟩ ∧
    (loadInventory stoi prior (some (saveInventory fmtSize s))).top = s.nodes.getLast? := by
  have hload : loadInventory stoi prior (some (saveInventory fmtSize s)) = ⟨s.nodes.reverse⟩ := by
    have hread : readItemFile stoi (writeItems fmtSize s.nodes.reverse) = some s.nodes.reverse :=
      readItemFile_written fmtSize stoi s.nodes.reverse
        (fun item hi => hnames item (List.mem_reverse.1 hi))
        (by simpa using hsize) (by simpa using hstoi)
    have hnodes := Stack.foldl_push_nodes s.nodes (⟨[]⟩ : Stack Item)
    simp only [List.append_nil] at hnodes
    simp only [loadInventory, saveInventory, Stack.extractToVector_eq, List.nil_append, hread,
      Stack.stack_clear_eq, List.reverse_reverse]
    cases hs : List.foldl Stack.push (⟨[]⟩ : Stack Item) s.nodes with
    | mk nodes' =>
      rw [hs] at hnodes
      simp only at hnodes
      rw [hnodes]
  refine ⟨hload, ?_⟩
  rw [hload]
  cases hr : s.nodes.reverse with
  | nil =>
    have : s.nodes = [] := by simpa using hr
    simp [Stack.top, this]
  | cons x xs =>
    have : s.nodes = xs.reverse ++ [x] := by
      have := congrArg List.reverse hr
      simpa using this
    simp [Stack.top, this]

/-- C23, the failing input: the items "bolt" then "nut" are pushed, so "nut"
is on top; after saving and reloading "bolt" is on top. -/
theorem inventory_reload_reverses_witness :
    (Stack.new.push (⟨"bolt"⟩ : Item)).push ⟨"nut"⟩ = ⟨[⟨"nut"⟩, ⟨"bolt"⟩]⟩ ∧
    saveInventory toString (⟨[⟨"nut"⟩, ⟨"bolt"⟩]⟩ : Stack Item) =
      "ITEM_COUNT:2\nITEM:bolt\nITEM:nut\n" ∧
    loadInventory stoiDigits Stack.new
        (some (saveInventory toString (⟨[⟨"nut"⟩, ⟨"bolt"⟩]⟩ : Stack Item))) =
      ⟨[⟨"bolt"⟩, ⟨"nut"⟩]⟩ ∧
    (loadInventory stoiDigits Stack.new
        (some (saveInventory toString (⟨[⟨"nut"⟩, ⟨"bolt"⟩]⟩ : Stack Item)))).top =
      some ⟨"bolt"⟩ := by
  have h := inventory_reload_reverses toString stoiDigits (⟨[⟨"nut"⟩, ⟨"bolt"⟩]⟩ : Stack Item)
    Stack.new (by decide) (by decide) (by decide)
  exact ⟨rfl, by decide, h.1, h.2⟩

/-- C24: for every shipping queue whose item names hold no line feed (and
whose size is printed, without line feed, as a text `stoi` reads back),
loading with `loadShippingQueue` the text written by `saveShippingQueue`
yields, whatever the queue held before, the same items in the same order from
front to back; so the next item to ship is the same. -/
theorem shipping_queue_roundtrip (fmtSize : Nat → String) (stoi : String → Option Int)
    (q prior : Queue Item) (hnames : ∀ item ∈ q.nodes, Bank.NoLineFeed item.name)
    (hsize : Bank.NoLineFeed (fmtSize q.nodes.length))
    (hstoi : stoi (fmtSize q.nodes.length) = some (q.nodes.length : Int)) :
    loadShippingQueue stoi prior (some (saveShippingQueue fmtSize q)) = q ∧
    (loadShippingQueue stoi prior (some (saveShippingQueue fmtSize q))).toVector [] =
      q.toVector [] ∧
    (loadShippingQueue stoi prior (some (saveShippingQueue fmtSize q))).front = q.front := by
  have hload : loadShippingQueue stoi prior (some (saveShippingQueue fmtSize q)) = q := by
    have hread : readItemFile stoi (writeItems fmtSize q.nodes) = some q.nodes :=
      readItemFile_written fmtSize stoi q.nodes hnames hsize hstoi
    have hnodes := Queue.pushAll_nodes q.nodes (⟨[]⟩ : Queue Item)
    simp only [List.nil_append, Queue.pushAll] at hnodes
    simp only [loadShippingQueue, saveShippingQueue, Queue.extractToVector, Queue.queue_drain_eq,
      List.nil_append, hread, Queue.queue_clear_eq]
    obtain ⟨nodes⟩ := q
    cases hs : List.foldl Queue.push (⟨[]⟩ : Queue Item) nodes with
    | mk nodes' =>
      simp only at hnodes
      rw [hs] at hnodes
      simp only at hnodes
      rw [hnodes]
  exact ⟨hload, by rw [hload], by rw [hload]⟩

/-- C24, an instance: "bolt", "nut", "gear" queued in that order come back in
that order, with "bolt" next to ship, also when the queue held something
before the load. -/
theorem shipping_queue_roundtrip_witness :
    loadShippingQueue stoiDigits ⟨[⟨"old"⟩]⟩
        (some (saveShippingQueue toString
          ((Queue.new : Queue Item).pushAll [⟨"bolt"⟩, ⟨"nut"⟩, ⟨"gear"⟩]))) =
      (Queue.new : Queue Item).pushAll [⟨"bolt"⟩, ⟨"nut"⟩, ⟨"gear"⟩] ∧
    ((Queue.new : Queue Item).pushAll [⟨"bolt"⟩, ⟨"nut"⟩, ⟨"gear"⟩]).front = some ⟨"bolt"⟩ :=
  ⟨(shipping_queue_roundtrip toString stoiDigits
      ((Queue.new : Queue Item).pushAll [⟨"bolt"⟩, ⟨"nut"⟩, ⟨"gear"⟩]) ⟨[⟨"old"⟩]⟩
      (by decide) (by decide) (by decide)).1, rfl⟩

/-- C26 fails on the code: the file below announces three items, holds one
`ITEM:` line and does not end with a line feed. The second and third `getline`
read nothing and leave `line` as it was, the format check passes on the old
line, and the stack ends up holding the item "bolt" three times, neither the
items of three `ITEM:` lines nor empty. With a final line feed the same file
leaves the stack empty. -/
theorem loadInventory_repeats_last_line :
    loadInventory stoiDigits ⟨[⟨"old"⟩]⟩ (some "ITEM_COUNT:3\nITEM:bolt") =
      ⟨[⟨"bolt"⟩, ⟨"bolt"⟩, ⟨"bolt"⟩]⟩ ∧
    loadInventory stoiDigits ⟨[⟨"old"⟩]⟩ (some "ITEM_COUNT:3\nITEM:bolt\n") = ⟨[]⟩ := by
  constructor <;> rfl

end Warehouse

namespace Bank

/-! ## Lookup after a deletion -/

theorem uniqueKeys_runOps (stod : String → Option Money) (ops : List Op) :
    ∀ head : Registry, UniqueKeys head → UniqueKeys (runOps stod head ops) := by
  induction ops with
  | nil => intro head h; exact h
  | cons op ops ih =>
    intro head h
    exact ih _ (uniqueKeys_apply stod head op h)

theorem search_skip (pre post : Registry) (acc : Account) (accNum : String)
    (h : acc.accountNumber ≠ accNum) :
    searchByAccountNumber (pre ++ acc :: post) accNum =
      searchByAccountNumber (pre ++ post) accNum := by
  induction pre with
  | nil => simp [searchByAccountNumber, Account.getAccountNumber, h]
  | cons p pre ih =>
    by_cases hp : p.accountNumber = accNum
    · simp [searchByAccountNumber, Account.getAccountNumber, hp]
    · simp [searchByAccountNumber, Account.getAccountNumber, hp, ih]

/-- C25: in every registry reached from the empty one by `addAccount`,
`deleteAccount`, `deposit` and `withdraw` calls (loads included), when
`deleteAccount(k)` returns `true` the lookup of `k` afterwards is absent,
`addAccount` of any record numbered `k` then succeeds, and the lookup of every
other number gives what it gave before the deletion. -/
theorem delete_then_lookup (stod : String → Option Money) (ops : List Op) (accNum : String)
    (hdel : (deleteAccount (runOps stod [] ops) accNum).1 = true) :
    searchByAccountNumber (deleteAccount (runOps stod [] ops) accNum).2 accNum = none ∧
    (∀ r : Account, r.accountNumber = accNum →
      (addAccount (deleteAccount (runOps stod [] ops) accNum).2 r).1 = true ∧
      searchByAccountNumber (addAccount (deleteAccount (runOps stod [] ops) accNum).2 r).2
        accNum = some r) ∧
    (∀ other : String, other ≠ accNum →
      searchByAccountNumber (deleteAccount (runOps stod [] ops) accNum).2 other =
        searchByAccountNumber (runOps stod [] ops) other) := by
  have hu : UniqueKeys (runOps stod [] ops) := uniqueKeys_runOps stod ops [] List.Pairwise.nil
  generalize runOps stod [] ops = head at hu hdel
  rw [deleteAccount_eq_unlinkAfter] at hdel ⊢
  have hex : ∃ r ∈ head, r.accountNumber = accNum := by
    by_contra hno
    have habs : ∀ r ∈ head, r.accountNumber ≠ accNum := fun r hr hk => hno ⟨r, hr, hk⟩
    rw [unlinkAfter_absent head accNum habs] at hdel
    exact absurd hdel (by simp)
  obtain ⟨pre, acc, post, rfl, hpre, hacc⟩ := exists_first_split head accNum hex
  rw [unlinkAfter_split pre post acc accNum hpre hacc]
  have hpost : ∀ r ∈ post, r.accountNumber ≠ accNum := by
    intro r hr
    unfold UniqueKeys at hu
    rw [List.pairwise_append] at hu
    have := (List.pairwise_cons.1 hu.2.1).1 r hr
    rw [hacc] at this
    exact fun h => this h.symm
  have habsent : ∀ r ∈ pre ++ post, r.accountNumber ≠ accNum := by
    intro r hr
    rcases List.mem_append.1 hr with h | h
    · exact hpre r h
    · exact hpost r h
  have hnone : searchByAccountNumber (pre ++ post) accNum = none :=
    (search_eq_none_iff _ accNum).2 habsent
  refine ⟨hnone, ?_, ?_⟩
  · intro r hr
    have hadd : addAccount (pre ++ post) r = (true, (pre ++ post) ++ [r]) := by
      unfold addAccount
      have : searchByAccountNumber (pre ++ post) r.getAccountNumber = none := by
        simp only [Account.getAccountNumber, hr, hnone]
      rw [this, linkAtTail_eq]
    rw [hadd]
    exact ⟨rfl, (search_eq_some_iff _ accNum r).2 ⟨pre ++ post, [], rfl, habsent, hr⟩⟩
  · intro other hother
    exact (search_skip pre post acc other (by rw [hacc]; exact fun h => hother h.symm)).symm

/-- C25, an instance: after "101", "102", "103" are added and "102" is
deleted, "102" is not found, it can be added again, and "103" is found as
before. -/
theorem delete_then_lookup_witness :
    searchByAccountNumber
      (deleteAccount (runOps stodDigits []
        [.addAccount (mkAccount "101" "Ann" 1), .addAccount (mkAccount "102" "Bob" 2),
          .addAccount (mkAccount "103" "Cy" 3)]) "102").2 "102" = none ∧
    searchByAccountNumber
      (deleteAccount (runOps stodDigits []
        [.addAccount (mkAccount "101" "Ann" 1), .addAccount (mkAccount "102" "Bob" 2),
          .addAccount (mkAccount "103" "Cy" 3)]) "102").2 "103" = some (mkAccount "103" "Cy" 3) := by
  have h := delete_then_lookup stodDigits
    [.addAccount (mkAccount "101" "Ann" 1), .addAccount (mkAccount "102" "Bob" 2),
      .addAccount (mkAccount "103" "Cy" 3)] "102" (by decide)
  refine ⟨h.1, ?_⟩
  rw [h.2.2 "103" (by decide)]
  decide

end Bank

namespace Warehouse

namespace Linked

/-! ## What the save functions do to the nodes of the caller -/

theorem read_delete_self {T : Type} (h : Heap T) (p : Nat) : (h.delete p).read p = none := by
  induction h generalizing p with
  | nil => simp [Heap.delete, Heap.read]
  | cons x xs ih =>
    cases p with
    | zero => simp [Heap.delete, Heap.read]
    | succ p => simpa [Heap.delete, Heap.read] using ih p

theorem read_delete_of_none {T : Type} (h : Heap T) (p q : Nat) (hnone : h.read p = none) :
    (h.delete q).read p = none := by
  induction h generalizing p q with
  | nil => simp [Heap.delete, Heap.read]
  | cons x xs ih =>
    cases q with
    | zero =>
      cases p with
      | zero => simp [Heap.delete, Heap.read]
      | succ p => simpa [Heap.delete, Heap.read] using hnone
    | succ q =>
      cases p with
      | zero => simpa [Heap.delete, Heap.read] using hnone
      | succ p =>
        have hxs : Heap.read xs p = none := by simpa [Heap.read] using hnone
        simpa [Heap.delete, Heap.read] using ih p q hxs

theorem live_delete {T : Type} (h : Heap T) (p : Nat) (node : Node T)
    (hread : h.read p = some node) : (h.delete p).live + 1 = h.live := by
  induction h generalizing p with
  | nil => simp [Heap.read] at hread
  | cons x xs ih =>
    cases p with
    | zero =>
      have hx : x = some node := by simpa [Heap.read] using hread
      subst hx
      simp [Heap.delete, Heap.live]
    | succ p =>
      have hxs : Heap.read xs p = some node := by simpa [Heap.read] using hread
      have := ih p hxs
      simp only [Heap.delete, Heap.live, List.set_cons_succ, List.countP_cons] at this ⊢
      omega

theorem live_le_length {T : Type} (h : Heap T) : h.live ≤ h.length :=
  List.countP_le_length _

theorem stack_drain_fuel {T : Type} (fuel : Nat) :
    ∀ (h : Heap T) (s : StackObj) (temp : List T), h.live < fuel →
      StackObj.drain fuel h s temp ≠ .outOfFuel := by
  induction fuel with
  | zero => intro h s temp hlt; exact absurd hlt (Nat.not_lt_zero _)
  | succ fuel ih =>
    intro h s temp hlt
    obtain ⟨top⟩ := s
    cases top with
    | none => simp [StackObj.drain]
    | some p =>
      cases hread : h.read p with
      | none => simp [StackObj.drain, hread]
      | some node =>
        simp only [StackObj.drain, hread]
        exact ih _ _ _ (by have := live_delete h p node hread; omega)

theorem queue_drain_fuel {T : Type} (fuel : Nat) :
    ∀ (h : Heap T) (q : QueueObj) (out : List T), h.live < fuel →
      QueueObj.drain fuel h q out ≠ .outOfFuel := by
  induction fuel with
  | zero => intro h q out hlt; exact absurd hlt (Nat.not_lt_zero _)
  | succ fuel ih =>
    intro h q out hlt
    obtain ⟨front, back⟩ := q
    cases front with
    | none => simp [QueueObj.drain]
    | some p =>
      cases hread : h.read p with
      | none => simp [QueueObj.drain, hread]
      | some node =>
        simp only [QueueObj.drain, hread]
        exact ih _ _ _ (by have := live_delete h p node hread; omega)

theorem stack_drain_keeps_deleted {T : Type} (fuel : Nat) :
    ∀ (h : Heap T) (s : StackObj) (temp : List T) (r : Heap T × StackObj × List T),
      StackObj.drain fuel h s temp = .done r → ∀ p, h.read p = none → r.1.read p = none := by
  induction fuel with
  | zero => intro h s temp r hr; simp [StackObj.drain] at hr
  | succ fuel ih =>
    intro h s temp r hr p hp
    obtain ⟨top⟩ := s
    cases top with
    | none =>
      simp only [StackObj.drain, Run.done.injEq] at hr
      subst hr
      exact hp
    | some a =>
      cases hread : h.read a with
      | none => simp [StackObj.drain, hread] at hr
      | some node =>
        simp only [StackObj.drain, hread] at hr
        exact ih _ _ _ r hr p (read_delete_of_none h p a hp)

theorem queue_drain_keeps_deleted {T : Type} (fuel : Nat) :
    ∀ (h : Heap T) (q : QueueObj) (out : List T) (r : Heap T × QueueObj × List T),
      QueueObj.drain fuel h q out = .done r → ∀ p, h.read p = none → r.1.read p = none := by
  induction fuel with
  | zero => intro h q out r hr; simp [QueueObj.drain] at hr
  | succ fuel ih =>
    intro h q out r hr p hp
    obtain ⟨front, back⟩ := q
    cases front with
    | none =>
      simp only [QueueObj.drain, Run.done.injEq] at hr
      subst hr
      exact hp
    | some a =>
      cases hread : h.read a with
      | none => simp [QueueObj.drain, hread] at hr
      | some node =>
        simp only [QueueObj.drain, hread] at hr
        exact ih _ _ _ r hr p (read_delete_of_none h p a hp)

theorem stack_drain_deletes_top {T : Type} (fuel : Nat) (h : Heap T) (p : Nat) (temp : List T)
    (r : Heap T × StackObj × List T)
    (hr : StackObj.drain fuel h { topNode := some p } temp = .done r) : r.1.read p = none := by
  cases fuel with
  | zero => simp [StackObj.drain] at hr
  | succ fuel =>
    cases hread : h.read p with
    | none => simp [StackObj.drain, hread] at hr
    | some node =>
      simp only [StackObj.drain, hread] at hr
      exact stack_drain_keeps_deleted fuel _ _ _ r hr p (read_delete_self h p)

theorem queue_drain_deletes_front {T : Type} (fuel : Nat) (h : Heap T) (p : Nat)
    (back : Option Nat) (out : List T) (r : Heap T × QueueObj × List T)
    (hr : QueueObj.drain fuel h { frontNode := some p, backNode := back } out = .done r) :
    r.1.read p = none := by
  cases fuel with
  | zero => simp [QueueObj.drain] at hr
  | succ fuel =>
    cases hread : h.read p with
    | none => simp [QueueObj.drain, hread] at hr
    | some node =>
      simp only [QueueObj.drain, hread] at hr
      exact queue_drain_keeps_deleted fuel _ _ _ r hr p (read_delete_self h p)

theorem chain_of_deleted {T : Type} (fuel : Nat) (h : Heap T) (p : Nat)
    (hp : h.read p = none) : chain (fuel + 1) h (some p) = .undefined := by
  simp [chain, hp]

end Linked

end Warehouse

namespace Warehouse

namespace Linked

/-- C22 fails on the code: the parameter of `saveInventory` and of
`saveShippingQueue` shares its nodes with the object of the caller, and
`extractToVector` deletes them. Whenever a save function returns for a
non-empty container, the node the caller's `topNode` (or `frontNode`) points
to has been deleted, so the caller's container no longer holds its items:
listing them uses a deleted node. The loops of the save functions never run
out of fuel. -/
theorem save_deletes_nodes_of_caller (fmtSize : Nat → String) :
    (∀ (h : Heap Item) (caller : StackObj) (p : Nat) (h' : Heap Item) (text : String),
      caller.topNode = some p → saveInventory fmtSize h caller = .done (h', text) →
      h'.read p = none ∧ caller.items h' = (.undefined : Run (List Item))) ∧
    (∀ (h : Heap Item) (caller : QueueObj) (p : Nat) (h' : Heap Item) (text : String),
      caller.frontNode = some p → saveShippingQueue fmtSize h caller = .done (h', text) →
      h'.read p = none ∧ caller.items h' = (.undefined : Run (List Item))) ∧
    (∀ (h : Heap Item) (caller : StackObj), saveInventory fmtSize h caller ≠ .outOfFuel) ∧
    (∀ (h : Heap Item) (caller : QueueObj),
      saveShippingQueue fmtSize h caller ≠ .outOfFuel) := by
  refine ⟨?_, ?_, ?_, ?_⟩
  · intro h caller p h' text htop hsave
    obtain ⟨top⟩ := caller
    simp only at htop
    subst htop
    simp only [saveInventory, StackObj.extractToVector, StackObj.destroy] at hsave
    cases hd : StackObj.drain (h.length + 1) h { topNode := some p } [] with
    | undefined => simp [hd] at hsave
    | outOfFuel => simp [hd] at hsave
    | done r =>
      simp only [hd] at hsave
      have h1 : r.1.read p = none := stack_drain_deletes_top _ h p [] r hd
      cases hd2 : StackObj.drain (r.1.length + 1) r.1 r.2.1 [] with
      | undefined => simp [hd2] at hsave
      | outOfFuel => simp [hd2] at hsave
      | done r2 =>
        simp only [hd2, Run.done.injEq, Prod.mk.injEq] at hsave
        have h2 : r2.1.read p = none := stack_drain_keeps_deleted _ _ _ _ r2 hd2 p h1
        rw [← hsave.1]
        exact ⟨h2, chain_of_deleted _ _ p h2⟩
  · intro h caller p h' text hfront hsave
    obtain ⟨front, back⟩ := caller
    simp only at hfront
    subst hfront
    simp only [saveShippingQueue, QueueObj.extractToVector, QueueObj.destroy] at hsave
    cases hd : QueueObj.drain (h.length + 1) h { frontNode := some p, backNode := back } [] with
    | undefined => simp [hd] at hsave
    | outOfFuel => simp [hd] at hsave
    | done r =>
      simp only [hd] at hsave
      have h1 : r.1.read p = none := queue_drain_deletes_front _ h p back [] r hd
      cases hd2 : QueueObj.drain (r.1.length + 1) r.1 r.2.1 [] with
      | undefined => simp [hd2] at hsave
      | outOfFuel => simp [hd2] at hsave
      | done r2 =>
        simp only [hd2, Run.done.injEq, Prod.mk.injEq] at hsave
        have h2 : r2.1.read p = none := queue_drain_keeps_deleted _ _ _ _ r2 hd2 p h1
        rw [← hsave.1]
        exact ⟨h2, chain_of_deleted _ _ p h2⟩
  · intro h caller hout
    simp only [saveInventory, StackObj.extractToVector, StackObj.destroy] at hout
    cases hd : StackObj.drain (h.length + 1) h { topNode := caller.topNode } [] with
    | undefined => simp [hd] at hout
    | outOfFuel =>
      exact stack_drain_fuel _ h _ [] (Nat.lt_succ_of_le (live_le_length h)) hd
    | done r =>
      simp only [hd] at hout
      cases hd2 : StackObj.drain (r.1.length + 1) r.1 r.2.1 [] with
      | undefined => simp [hd2] at hout
      | outOfFuel =>
        exact stack_drain_fuel _ r.1 _ [] (Nat.lt_succ_of_le (live_le_length r.1)) hd2
      | done r2 => simp [hd2] at hout
  · intro h caller hout
    simp only [saveShippingQueue, QueueObj.extractToVector, QueueObj.destroy] at hout
    cases hd : QueueObj.drain (h.length + 1) h
        { frontNode := caller.frontNode, backNode := caller.backNode } [] with
    | undefined => simp [hd] at hout
    | outOfFuel =>
      exact queue_drain_fuel _ h _ [] (Nat.lt_succ_of_le (live_le_length h)) hd
    | done r =>
      simp only [hd] at hout
      cases hd2 : QueueObj.drain (r.1.length + 1) r.1 r.2.1 [] with
      | undefined => simp [hd2] at hout
      | outOfFuel =>
        exact queue_drain_fuel _ r.1 _ [] (Nat.lt_succ_of_le (live_le_length r.1)) hd2
      | done r2 => simp [hd2] at hout

/-- C22, the failing input: "bolt" then "nut" are pushed on an empty stack.
Before `saveInventory` the stack of the caller lists "nut", "bolt"; the call
returns after writing both items and deleting both nodes; after it the
caller's `topNode` still points to the node of "nut", which is deleted, and
listing the stack uses it. -/
theorem save_deletes_nodes_of_caller_witness :
    StackObj.push (StackObj.push ([] : Heap Item) { topNode := none } ⟨"bolt"⟩).1
        (StackObj.push ([] : Heap Item) { topNode := none } ⟨"bolt"⟩).2 ⟨"nut"⟩ =
      ([some { data := ⟨"bolt"⟩, next := none }, some { data := ⟨"nut"⟩, next := some 0 }],
        { topNode := some 1 }) ∧
    StackObj.items
        [some { data := (⟨"bolt"⟩ : Item), next := none },
          some { data := ⟨"nut"⟩, next := some 0 }]
        { topNode := some 1 } = .done [⟨"nut"⟩, ⟨"bolt"⟩] ∧
    saveInventory toString
        [some { data := (⟨"bolt"⟩ : Item), next := none },
          some { data := ⟨"nut"⟩, next := some 0 }]
        { topNode := some 1 } = .done ([none, none], "ITEM_COUNT:2\nITEM:bolt\nITEM:nut\n") ∧
    StackObj.items ([none, none] : Heap Item) { topNode := some 1 } = .undefined := by
  have hsave : saveInventory toString
      [some { data := (⟨"bolt"⟩ : Item), next := none },
        some { data := ⟨"nut"⟩, next := some 0 }]
      { topNode := some 1 } = .done ([none, none], "ITEM_COUNT:2\nITEM:bolt\nITEM:nut\n") := by
    decide
  exact ⟨rfl, by decide, hsave,
    ((save_deletes_nodes_of_caller toString).1 _ { topNode := some 1 } 1 _ _ rfl hsave).2⟩

end Linked

end Warehouse
